import Mathlib

/-!
Verification of the route-discovery and search-indexing submission core of
the `nextjs-indexing-pack` package (`src/indexnow.ts`, `src/google-indexing.ts`).

The TypeScript code is shallowly embedded: JSON values become an inductive
type, the optional manifest files of a build directory become explicit
`FileRead` fields, the network and the platform crypto become oracle
functions carried in a `World` structure, and the `async` control flow
becomes explicit `Except`-style error propagation plus an effect trace that
records network calls and credential-file reads.
-/

instance {ε α : Type} [DecidableEq ε] [DecidableEq α] : DecidableEq (Except ε α) := fun a b =>
  match a, b with
  | .ok x, .ok y =>
    if h : x = y then .isTrue (congrArg Except.ok h) else .isFalse fun hh => h (Except.ok.inj hh)
  | .error x, .error y =>
    if h : x = y then .isTrue (congrArg Except.error h)
    else .isFalse fun hh => h (Except.error.inj hh)
  | .ok _, .error _ => .isFalse fun hh => Except.noConfusion hh
  | .error _, .ok _ => .isFalse fun hh => Except.noConfusion hh

/-- JSON values, the result of a successful `JSON.parse`.  Object fields are
kept in insertion order, as JavaScript objects do; the model assumes parsed
objects carry no duplicate keys (as `JSON.parse` output, where a later
duplicate overwrites an earlier one, never does). -/
inductive Json where
  | null : Json
  | bool (b : Bool) : Json
  | num (n : Int) : Json
  | str (s : String) : Json
  | arr (items : List Json) : Json
  | obj (fields : List (String × Json)) : Json

/-- Field access on a JSON value: `j?.k` style optional chaining.  Returns
`none` when the value is not an object or lacks the field. -/
def Json.getField : Json → String → Option Json
  | .obj fields, k => List.lookup k fields
  | _, _ => none

/-- Hexadecimal digit characters used by the JSON string escaper: the
digits, then the lower-case letters. -/
def hexDigitChar (n : Nat) : Char :=
  if n < 10 then Char.ofNat (48 + n) else Char.ofNat (87 + n)

/-- Escaping of one character inside a JSON string literal, as
`JSON.stringify` performs it. -/
def jsonEscapeChar (c : Char) : List Char :=
  if c = '"' then ['\\', '"']
  else if c = '\\' then ['\\', '\\']
  else if c = '\n' then ['\\', 'n']
  else if c = '\r' then ['\\', 'r']
  else if c = '\t' then ['\\', 't']
  else if c = '\x08' then ['\\', 'b']
  else if c = '\x0c' then ['\\', 'f']
  else if c.toNat < 32 then ['\\', 'u', '0', '0', hexDigitChar (c.toNat / 16), hexDigitChar (c.toNat % 16)]
  else [c]

/-- A JSON string literal: quoted and escaped, as `JSON.stringify` renders
strings. -/
def jsonQuote (s : String) : String :=
  "\"" ++ String.mk (s.toList.flatMap jsonEscapeChar) ++ "\""

mutual

/-- Serialization of a JSON value, as `JSON.stringify` renders it: object
fields in insertion order, no added whitespace. -/
def Json.stringify : Json → String
  | .null => "null"
  | .bool b => cond b "true" "false"
  | .num n => toString n
  | .str s => jsonQuote s
  | .arr items => "[" ++ Json.stringifyItems items ++ "]"
  | .obj fields => "\x7b" ++ Json.stringifyFields fields ++ "\x7d"

/-- Comma-joined serialization of JSON array items. -/
def Json.stringifyItems : List Json → String
  | [] => ""
  | [x] => Json.stringify x
  | x :: y :: xs => Json.stringify x ++ "," ++ Json.stringifyItems (y :: xs)

/-- Comma-joined serialization of JSON object fields. -/
def Json.stringifyFields : List (String × Json) → String
  | [] => ""
  | [(k, v)] => jsonQuote k ++ ":" ++ Json.stringify v
  | (k, v) :: f :: xs => jsonQuote k ++ ":" ++ Json.stringify v ++ "," ++ Json.stringifyFields (f :: xs)

end

/-- Outcome of reading one optional JSON file from disk, combining
`fs.readFile` and `JSON.parse`: the file may be absent (an ENOENT error),
present but failing to read or parse (any other thrown error, carrying its
message), or present with parsed content. -/
inductive FileRead where
  | absent : FileRead
  | failed (msg : String) : FileRead
  | content (json : Json) : FileRead

/-- The build directory, abstracted to the four optional manifest files
that `collectIndexableRoutes` reads. -/
structure BuildDir where
  routesManifest : FileRead
  prerenderManifest : FileRead
  pagesManifest : FileRead
  appPathsManifest : FileRead

/-- Embedding of `readJsonIfExists` of `src/indexnow.ts`: returns `null` (here `none`)
when the file is absent (error code ENOENT) and rethrows every other
failure, including a JSON parse failure of a present file. -/
def readJsonIfExists : FileRead → Except String (Option Json)
  | .absent => .ok none
  | .failed msg => .error msg
  | .content j => .ok (some j)

/-- Embedding of `DEFAULT_EXCLUDED_ROUTES` of `src/indexnow.ts`. -/
def DEFAULT_EXCLUDED_ROUTES : List String :=
  ["/404", "/500", "/_error", "/_app", "/_document", "/_middleware", "/index", "/_not-found"]

/-- Embedding of `DEFAULT_ENDPOINTS` of `src/indexnow.ts`. -/
def DEFAULT_ENDPOINTS : List String :=
  ["https://api.indexnow.org/indexnow", "https://www.bing.com/indexnow",
   "https://yandex.com/indexnow", "https://searchadvisor.naver.com/indexnow"]

/-- Character-level body of `normalizeRoute`: prefix a leading slash when
missing (`route.startsWith("/")`), then strip one trailing slash unless the
route is exactly the root (`route.slice(0, -1)`). -/
def normalizeChars (l : List Char) : List Char :=
  let r := if l.head? = some '/' then l else '/' :: l
  if r ≠ ['/'] ∧ r.getLast? = some '/' then r.dropLast else r

/-- Embedding of `normalizeRoute` of `src/indexnow.ts`. -/
def normalizeRoute (route : String) : String :=
  String.mk (normalizeChars route.toList)

/-- Embedding of `isDynamicRoute` of `src/indexnow.ts`: the regular expression
test for a bracket character, or an `includes` test for a colon. -/
def isDynamicRoute (route : String) : Bool :=
  route.toList.contains '[' || route.toList.contains ']' || route.toList.contains ':'

/-- Embedding of `shouldExcludeRoute` of `src/indexnow.ts`: membership in the fixed
exclusion set, or the internal-assets prefix test
(`route.startsWith("/_next")`). -/
def shouldExcludeRoute (route : String) : Bool :=
  DEFAULT_EXCLUDED_ROUTES.contains route || List.isPrefixOf "/_next".toList route.toList

/-- One loop iteration of `collectIndexableRoutes`: normalize a raw route
key, skip it when dynamic or excluded, and add it to the accumulated set
(`Set.add`, modelled as an insertion-ordered duplicate-free list).  The
manifests other than the prerender manifest additionally map a normalized
`/index` to the root route before adding (`indexAlias`). -/
def addRoute (indexAlias : Bool) (acc : List String) (raw : String) : List String :=
  let normalized := normalizeRoute raw
  if isDynamicRoute normalized || shouldExcludeRoute normalized then acc
  else
    let final := if indexAlias ∧ normalized = "/index" then "/" else normalized
    if acc.contains final then acc else acc ++ [final]

/-- The raw route keys contributed by `routesManifest?.staticRoutes`: the
truthy `page` field of each entry (`if (!route?.page) continue`). -/
def staticRoutePages (m : Option Json) : List String :=
  match m with
  | some j =>
    match j.getField "staticRoutes" with
    | some (.arr routes) =>
      routes.filterMap fun r =>
        match r.getField "page" with
        | some (.str s) => if s = "" then none else some s
        | _ => none
    | _ => []
  | none => []

/-- The raw route keys contributed by `prerenderManifest?.routes`:
`Object.keys` of the mapping. -/
def prerenderRouteKeys (m : Option Json) : List String :=
  match m with
  | some j =>
    match j.getField "routes" with
    | some (.obj fields) => fields.map (·.1)
    | _ => []
  | none => []

/-- The raw route keys contributed by the server pages manifest or the
server app-paths manifest: `Object.keys` of the parsed object. -/
def manifestKeys (m : Option Json) : List String :=
  match m with
  | some (.obj fields) => fields.map (·.1)
  | _ => []

/-- Three-way lexicographic comparison of character sequences by code
point, the building block of the sample collation below. -/
def charsLt : List Char → List Char → Bool
  | [], [] => false
  | [], _ :: _ => true
  | _ :: _, [] => false
  | a :: as, b :: bs => if a < b then true else if b < a then false else charsLt as bs

/-- A fixed sample collation for `a.localeCompare(b)`: three-way
code-point lexicographic comparison.  The platform function consults the
default collation of the host runtime, which the source code does not
determine and which (under the ICU root collator) diverges from code-point
order even on ASCII route strings, so the faithful embedding treats the
collation as an oracle (`routeCompareWith`, `collectIndexableRoutesWith`);
this sample instantiates it in the claims that do not depend on the
order. -/
def codePointCompare (a b : String) : Int :=
  if charsLt a.toList b.toList then -1 else if a = b then 0 else 1

/-- The sort comparator of `collectIndexableRoutes`, parameterized by the
host collation oracle `cmp` standing for `a.localeCompare(b)`:
`(a, b) => (a === "/" ? -1 : b === "/" ? 1 : a.localeCompare(b))`. -/
def routeCompareWith (cmp : String → String → Int) (a b : String) : Int :=
  if a = "/" then -1 else if b = "/" then 1 else cmp a b

/-- The order induced by the parametric sort comparator:
`routeCompareWith cmp a b <= 0`. -/
def routeLEWith (cmp : String → String → Int) (a b : String) : Prop :=
  routeCompareWith cmp a b ≤ 0

instance (cmp : String → String → Int) : DecidableRel (routeLEWith cmp) := fun a b =>
  inferInstanceAs (Decidable (routeCompareWith cmp a b ≤ 0))

/-- The parametric embedding of `routes.sort(comparator)` of
`collectIndexableRoutes`.  JavaScript `Array.prototype.sort` with a
consistent comparator produces a permutation of its input that is sorted
by the comparator; the elements here are pairwise distinct, so for a total
and transitive collation the sorted permutation is unique and insertion
sort models it exactly. -/
def sortRoutesWith (cmp : String → String → Int) (l : List String) : List String :=
  List.insertionSort (routeLEWith cmp) l

/-- The sort comparator of `collectIndexableRoutes` under the fixed sample
code-point collation. -/
def routeCompare (a b : String) : Int :=
  if a = "/" then -1 else if b = "/" then 1 else codePointCompare a b

/-- The total order induced by the sample sort comparator:
`routeCompare a b <= 0`. -/
def routeLE (a b : String) : Prop := routeCompare a b ≤ 0

instance : DecidableRel routeLE := fun a b =>
  inferInstanceAs (Decidable (routeCompare a b ≤ 0))

/-- Embedding of `routes.sort(comparator)` of `collectIndexableRoutes`
under the fixed sample code-point collation (definitionally
`sortRoutesWith codePointCompare`). -/
def sortRoutes (l : List String) : List String :=
  List.insertionSort routeLE l

/-- The faithful embedding of `collectIndexableRoutes` of
`src/indexnow.ts`, with the host collation passed as the oracle `cmp`:
reads the four optional manifests in order, accumulates their normalized
route keys into one deduplicated set, and sorts the result with the
root-first comparator built from `cmp`.  A failed manifest read other than
absence propagates as an error. -/
def collectIndexableRoutesWith (cmp : String → String → Int) (dir : BuildDir) :
    Except String (List String) := do
  let routesManifest ← readJsonIfExists dir.routesManifest
  let acc := (staticRoutePages routesManifest).foldl (addRoute true) []
  let prerenderManifest ← readJsonIfExists dir.prerenderManifest
  let acc := (prerenderRouteKeys prerenderManifest).foldl (addRoute false) acc
  let pagesManifest ← readJsonIfExists dir.pagesManifest
  let acc := (manifestKeys pagesManifest).foldl (addRoute true) acc
  let appPathsManifest ← readJsonIfExists dir.appPathsManifest
  let acc := (manifestKeys appPathsManifest).foldl (addRoute true) acc
  return sortRoutesWith cmp acc

/-- Embedding of `collectIndexableRoutes` of `src/indexnow.ts` under the
fixed sample code-point collation: it is definitionally
`collectIndexableRoutesWith codePointCompare`.  The claims stated against
it do not depend on the collation order (they use the route set only up to
permutation, or on inputs whose order every collation agrees on); the
order claim is stated against `collectIndexableRoutesWith`. -/
def collectIndexableRoutes (dir : BuildDir) : Except String (List String) := do
  let routesManifest ← readJsonIfExists dir.routesManifest
  let acc := (staticRoutePages routesManifest).foldl (addRoute true) []
  let prerenderManifest ← readJsonIfExists dir.prerenderManifest
  let acc := (prerenderRouteKeys prerenderManifest).foldl (addRoute false) acc
  let pagesManifest ← readJsonIfExists dir.pagesManifest
  let acc := (manifestKeys pagesManifest).foldl (addRoute true) acc
  let appPathsManifest ← readJsonIfExists dir.appPathsManifest
  let acc := (manifestKeys appPathsManifest).foldl (addRoute true) acc
  return sortRoutes acc

/-- Modelled from the spec: the platform WHATWG URL parser (`new URL(s)`),
restricted to the components the package consumes: scheme, host and
pathname, with validity meaning a nonempty alphabetic scheme, the literal
`://` separator and a nonempty host.  Query strings, fragments, userinfo,
special schemes without a `//` authority, and percent or case
normalization are not modelled. -/
structure JSURL where
  scheme : String
  host : String
  pathname : String
deriving DecidableEq, Repr

/-- Parsing a URL string into its components; `none` models the `TypeError`
thrown by `new URL` on a malformed absolute URL. -/
def parseUrlChars (l : List Char) : Option JSURL :=
  let sch := l.takeWhile (fun c => c ≠ ':')
  if sch = [] ∨ ¬ sch.all Char.isAlpha then none
  else
    match l.dropWhile (fun c => c ≠ ':') with
    | ':' :: '/' :: '/' :: tail =>
      let host := tail.takeWhile (fun c => c ≠ '/')
      if host = [] then none
      else
        let path := tail.dropWhile (fun c => c ≠ '/')
        some ⟨String.mk sch, String.mk host, if path = [] then "/" else String.mk path⟩
    | _ => none

/-- Accessor `url.origin`: the scheme and host. -/
def JSURL.origin (u : JSURL) : String := u.scheme ++ "://" ++ u.host

/-- The base normalization shared by `submitToIndexNow` and
`normalizeBaseUrl`: strip one trailing slash from the pathname unless it is
the bare root, then append a non-root pathname to the origin. -/
def normalizeParsedBase (u : JSURL) : String :=
  let p := u.pathname.toList
  let pathname := if p.getLast? = some '/' ∧ p ≠ ['/'] then p.dropLast else p
  u.origin ++ (if pathname = ['/'] then "" else String.mk pathname)

/-- Embedding of `normalizeBaseUrl` of `src/google-indexing.ts`. -/
def normalizeBaseUrl (baseUrl : String) : Except String String :=
  match parseUrlChars baseUrl.toList with
  | none =>
    .error ("`baseUrl` must be a fully qualified URL (for example, https://example.com). Received: "
      ++ baseUrl)
  | some u => .ok (normalizeParsedBase u)

/-- Mapping a canonical route to an absolute URL against the normalized
base: the root route maps to the bare base. -/
def routeToUrl (normalizedBase route : String) : String :=
  if route = "/" then normalizedBase else normalizedBase ++ route

/-- The URL filter applied to a candidate URL: `urlFilter ? urlFilter(u) : true`. -/
def applyFilter (filter : Option (String → Bool)) (u : String) : Bool :=
  match filter with
  | some f => f u
  | none => true

/-- Observable side effects traced by the embedding: one entry per network
request issued and per credential-file read. -/
inductive Effect where
  | netFetch (target : String) : Effect
  | credRead : Effect
deriving DecidableEq, Repr

/-- Outcome of one platform `fetch` call: either a received HTTP response
with a status code and a body text, or a thrown transport error carrying
`error?.message`. -/
inductive FetchResult where
  | response (status : Nat) (body : String) : FetchResult
  | thrown (msg : Option String) : FetchResult

/-- The JSON payload `submitToIndexNow` posts to every endpoint. -/
structure IndexNowPayload where
  host : String
  key : String
  keyLocation : String
  urlList : List String
deriving DecidableEq, Repr

/-- One entry of the IndexNow `responses` record: HTTP status, the 2xx
success flag, and the response body (`undefined`, here `none`, when the
body text is empty or the request threw without a message). -/
structure EndpointResponse where
  status : Nat
  ok : Bool
  body : Option String
deriving DecidableEq, Repr

/-- How one endpoint outcome is recorded: a received response stores its
status, its `ok` flag (2xx) and its body text (empty text becomes
`undefined`); a thrown error stores status 0, `ok := false` and the error
message. -/
def endpointOutcome : FetchResult → EndpointResponse
  | .response status body =>
    ⟨status, decide (200 ≤ status ∧ status ≤ 299), if body = "" then none else some body⟩
  | .thrown msg => ⟨0, false, msg⟩

/-- Keyed assignment `record[key] = value` on a JavaScript object, modelled
as an insertion-ordered association list: an existing key is overwritten in
place, a new key is appended. -/
def recordSet : List (String × EndpointResponse) → String → EndpointResponse →
    List (String × EndpointResponse)
  | [], k, v => [(k, v)]
  | (a, b) :: t, k, v => if a = k then (k, v) :: t else (a, b) :: recordSet t k v

/-- Embedding of `SubmitToIndexNowOptions` of `src/indexnow.ts`.  The build directory
itself lives in the world; absent optional fields are `none`, and an absent
`dryRun` behaves as `false`. -/
structure SubmitToIndexNowOptions where
  baseUrl : String
  key : String
  keyLocation : Option String
  endpoints : Option (List String)
  urlFilter : Option (String → Bool)
  dryRun : Bool

/-- Embedding of `SubmitToIndexNowResult` of `src/indexnow.ts`; the `responses` record
becomes an insertion-ordered association list keyed by endpoint URL. -/
structure SubmitToIndexNowResult where
  urls : List String
  responses : List (String × EndpointResponse)
deriving DecidableEq, Repr

/-- Route discovery composed with URL construction and filtering, exactly
as both submitters perform it: collect the indexable routes, map each to an
absolute URL against the normalized base, and apply the URL filter. -/
def discoveredUrls (dir : BuildDir) (normalizedBase : String)
    (filter : Option (String → Bool)) : Except String (List String) :=
  (collectIndexableRoutes dir).map fun routes =>
    (routes.map (routeToUrl normalizedBase)).filter (applyFilter filter)

/-- The external collaborators of `submitToIndexNow`: the build directory
and the network.  The fetch oracle is keyed by endpoint and payload; every
endpoint receives the identical payload, and with the per-call outcome
fixed by the oracle the completion order of the concurrent `Promise.all`
requests cannot influence the keyed `responses` record, so the fan-out is
modelled by folding over the endpoint list in order. -/
structure IndexNowWorld where
  buildDir : BuildDir
  fetch : String → IndexNowPayload → FetchResult

/-- Embedding of `submitToIndexNow` of `src/indexnow.ts`, returning the settled result
(or the thrown error) together with the trace of network effects. -/
def submitToIndexNow (w : IndexNowWorld) (o : SubmitToIndexNowOptions) :
    Except String SubmitToIndexNowResult × List Effect :=
  if o.baseUrl = "" then (.error "`baseUrl` must be provided.", [])
  else if o.key = "" then (.error "`key` must be provided.", [])
  else
    match parseUrlChars o.baseUrl.toList with
    | none => (.error "Invalid URL", [])
    | some url =>
      let normalizedBase := normalizeParsedBase url
      match discoveredUrls w.buildDir normalizedBase o.urlFilter with
      | .error e => (.error e, [])
      | .ok urls =>
        if o.dryRun then (.ok ⟨urls, []⟩, [])
        else
          let endpoints := o.endpoints.getD DEFAULT_ENDPOINTS
          let payload : IndexNowPayload :=
            ⟨url.host, o.key, o.keyLocation.getD (normalizedBase ++ "/" ++ o.key ++ ".txt"), urls⟩
          let responses :=
            endpoints.foldl (fun m e => recordSet m e (endpointOutcome (w.fetch e payload))) []
          (.ok ⟨urls, responses⟩, endpoints.map Effect.netFetch)

/-- Embedding of `GOOGLE_INDEXING_SCOPE` of `src/google-indexing.ts`. -/
def GOOGLE_INDEXING_SCOPE : String := "https://www.googleapis.com/auth/indexing"

/-- Embedding of `GOOGLE_TOKEN_URL` of `src/google-indexing.ts`. -/
def GOOGLE_TOKEN_URL : String := "https://oauth2.googleapis.com/token"

/-- Embedding of `GOOGLE_INDEXING_ENDPOINT` of `src/google-indexing.ts`. -/
def GOOGLE_INDEXING_ENDPOINT : String := "https://indexing.googleapis.com/v3/urlNotifications:publish"

/-- The base64 alphabet in index order. -/
def base64Alphabet : List Char :=
  "ABCDEFGHIJKLMNOPQRSTUVWXYZabcdefghijklmnopqrstuvwxyz0123456789+/".toList

/-- The base64 digit for a 6-bit value. -/
def b64Char (n : Nat) : Char := base64Alphabet.getD n 'A'

/-- Standard base64 of a byte sequence (`Buffer.toString("base64")`),
including trailing padding. -/
def base64Chars : List Nat → List Char
  | [] => []
  | [b1] => [b64Char (b1 / 4), b64Char (b1 % 4 * 16), '=', '=']
  | [b1, b2] => [b64Char (b1 / 4), b64Char (b1 % 4 * 16 + b2 / 16), b64Char (b2 % 16 * 4), '=']
  | b1 :: b2 :: b3 :: rest =>
    b64Char (b1 / 4) :: b64Char (b1 % 4 * 16 + b2 / 16) :: b64Char (b2 % 16 * 4 + b3 / 64) ::
      b64Char (b3 % 64) :: base64Chars rest

/-- The two character replacements of `base64UrlEncode`:
plus becomes minus and the slash becomes an underscore. -/
def base64UrlChar (c : Char) : Char :=
  if c = '+' then '-' else if c = '/' then '_' else c

/-- The final `replace` of `base64UrlEncode`: remove the trailing run of
padding characters. -/
def stripTrailingEquals (l : List Char) : List Char :=
  (l.reverse.dropWhile (fun c => c = '=')).reverse

/-- Embedding of `base64UrlEncode` of `src/google-indexing.ts` on a byte sequence:
base64, then the URL-safe character replacements, then padding removal. -/
def base64UrlEncode (bytes : List Nat) : String :=
  String.mk (stripTrailingEquals ((base64Chars bytes).map base64UrlChar))

/-- UTF-8 encoding of one code point (`Buffer.from(string)` byte
semantics). -/
def utf8Bytes (c : Char) : List Nat :=
  let n := c.toNat
  if n < 128 then [n]
  else if n < 2048 then [192 + n / 64, 128 + n % 64]
  else if n < 65536 then [224 + n / 4096, 128 + n / 64 % 64, 128 + n % 64]
  else [240 + n / 262144, 128 + n / 4096 % 64, 128 + n / 64 % 64, 128 + n % 64]

/-- The UTF-8 bytes of a string. -/
def strUtf8 (s : String) : List Nat := s.toList.flatMap utf8Bytes

/-- Embedding of `base64UrlEncode` applied to a string argument. -/
def base64UrlEncodeString (s : String) : String := base64UrlEncode (strUtf8 s)

/-- The `ServiceAccount` record of `src/google-indexing.ts`. -/
structure ServiceAccount where
  clientEmail : String
  privateKey : String
  tokenUri : String
deriving DecidableEq, Repr

/-- A JSON value that is a nonempty string, the shape every required
credential field must have (`typeof v !== "string" || !v` rejects the
rest). -/
def jsonNonemptyString : Option Json → Option String
  | some (.str s) => if s = "" then none else some s
  | _ => none

/-- Embedding of `readServiceAccount` of `src/google-indexing.ts`.  An absent file is an
error here (the `fs.readFile` rejection propagates, unlike the manifest
reads); a `.failed` read carries the propagated message, standing for
either a raw read error or the wrapped JSON parse failure.  The token
endpoint falls back to the well-known default when the field is missing or
null (`??`); each required field must be a nonempty string. -/
def readServiceAccount : FileRead → Except String ServiceAccount
  | .absent => .error "ENOENT: no such file or directory"
  | .failed msg => .error msg
  | .content j =>
    let tokenUriJson : Option Json :=
      match j.getField "token_uri" with
      | none => some (.str GOOGLE_TOKEN_URL)
      | some .null => some (.str GOOGLE_TOKEN_URL)
      | some v => some v
    match jsonNonemptyString (j.getField "client_email") with
    | none => .error "Google service account JSON is missing \"client_email\"."
    | some clientEmail =>
      match jsonNonemptyString (j.getField "private_key") with
      | none => .error "Google service account JSON is missing \"private_key\"."
      | some privateKey =>
        match jsonNonemptyString tokenUriJson with
        | none => .error "Google service account JSON is missing \"token_uri\"."
        | some tokenUri => .ok ⟨clientEmail, privateKey, tokenUri⟩

/-- The JWT header object literal of `createAccessToken`. -/
def jwtHeader : Json := .obj [("alg", .str "RS256"), ("typ", .str "JWT")]

/-- The JWT claims object literal of `createAccessToken`, issued at `now`
(seconds) and expiring one hour later. -/
def jwtClaims (sa : ServiceAccount) (now : Nat) : Json :=
  .obj [("iss", .str sa.clientEmail), ("scope", .str GOOGLE_INDEXING_SCOPE),
        ("aud", .str sa.tokenUri), ("exp", .num ((now : Int) + 3600)), ("iat", .num (now : Int))]

/-- The signing input of the assertion: the base64url-encoded serialized
header, a dot, and the base64url-encoded serialized claims. -/
def jwtMessage (sa : ServiceAccount) (now : Nat) : String :=
  base64UrlEncodeString (Json.stringify jwtHeader) ++ "." ++
    base64UrlEncodeString (Json.stringify (jwtClaims sa now))

/-- The full signed assertion built by `createAccessToken`: the signing
input, a dot, and the base64url-encoded signature of exactly that signing
input under the private key.  The platform RSA-SHA256 signer
(`crypto.createSign`) is an oracle mapping a key and a message to the
signature bytes. -/
def jwtAssertion (sign : String → String → List Nat) (sa : ServiceAccount) (now : Nat) : String :=
  jwtMessage sa now ++ "." ++ base64UrlEncode (sign sa.privateKey (jwtMessage sa now))

/-- The `application/x-www-form-urlencoded` token request body
(`URLSearchParams`): the fixed JWT bearer grant type with its colons
percent-encoded, and the assertion, whose base64url alphabet and dot
separators pass through the form encoding unchanged. -/
def tokenRequestBody (assertion : String) : String :=
  "grant_type=urn%3Aietf%3Aparams%3Aoauth%3Agrant-type%3Ajwt-bearer&assertion=" ++ assertion

/-- The external collaborators of `submitToGoogleIndexing`: the build
directory, the credential file, the token-exchange network endpoint (keyed
by URI and posted body), the per-URL notification endpoint (keyed by the
posted URL and notification type; the fixed endpoint and the run-constant
bearer token are not part of the key), the platform JSON parser for the
token response, the clock, and the RSA-SHA256 signer. -/
structure GoogleWorld where
  buildDir : BuildDir
  credential : FileRead
  tokenFetch : String → String → FetchResult
  publishFetch : String → String → FetchResult
  parseJson : String → Option Json
  now : Nat
  sign : String → String → List Nat

/-- Embedding of `createAccessToken` of `src/google-indexing.ts`: build and sign the
assertion, exchange it at the token endpoint, and extract the access
token.  The token fetch has no try/catch, so a thrown transport error
propagates; a non-2xx response, an unparsable response body and a missing
access token field each produce a descriptive error. -/
def createAccessToken (w : GoogleWorld) (sa : ServiceAccount) :
    Except String String × List Effect :=
  let assertion := jwtAssertion w.sign sa w.now
  match w.tokenFetch sa.tokenUri (tokenRequestBody assertion) with
  | .thrown msg => (.error (msg.getD "fetch failed"), [.netFetch sa.tokenUri])
  | .response status text =>
    if 200 ≤ status ∧ status ≤ 299 then
      match w.parseJson text with
      | none => (.error "Failed to parse Google OAuth token response.", [.netFetch sa.tokenUri])
      | some parsed =>
        match jsonNonemptyString (parsed.getField "access_token") with
        | none =>
          (.error "Google OAuth token response did not include an \"access_token\".",
            [.netFetch sa.tokenUri])
        | some accessToken => (.ok accessToken, [.netFetch sa.tokenUri])
    else
      (.error ("Google OAuth token request failed with status " ++ toString status ++ ": " ++
        (if text = "" then "no response body" else text)), [.netFetch sa.tokenUri])

/-- One entry of the Google `responses` array: the notified URL, the HTTP
status, the 2xx success flag and the body (empty text becomes `undefined`);
a thrown per-URL fetch records status 0, `ok := false` and the error
message. -/
structure UrlResponse where
  url : String
  status : Nat
  ok : Bool
  body : Option String
deriving DecidableEq, Repr

/-- How one per-URL notification outcome is recorded. -/
def urlOutcome (u : String) : FetchResult → UrlResponse
  | .response status body =>
    ⟨u, status, decide (200 ≤ status ∧ status ≤ 299), if body = "" then none else some body⟩
  | .thrown msg => ⟨u, 0, false, msg⟩

/-- The explicit-URL selection loop of `submitToGoogleIndexing`: falsy
entries are skipped, each remaining entry must parse as an absolute URL
(else the whole call throws naming the entry), the filter is applied to the
re-serialized URL, and duplicates (by the `seen` set) are dropped.  The
WHATWG re-serialization `parsed.toString()` is modelled as the identity on
the accepted string. -/
def selectExplicitUrls (filter : Option (String → Bool)) :
    List String → List String → List String → Except String (List String)
  | _seen, acc, [] => .ok acc
  | seen, acc, u :: rest =>
    if u = "" then selectExplicitUrls filter seen acc rest
    else
      match parseUrlChars u.toList with
      | none => .error ("Invalid URL provided to submitToGoogleIndexing: " ++ u)
      | some _ =>
        if ¬ applyFilter filter u then selectExplicitUrls filter seen acc rest
        else if seen.contains u then selectExplicitUrls filter seen acc rest
        else selectExplicitUrls filter (seen ++ [u]) (acc ++ [u]) rest

/-- Embedding of `SubmitToGoogleIndexingOptions` of `src/google-indexing.ts`.  The
credential file itself lives in the world; an absent `notificationType`
defaults to `URL_UPDATED`, and an absent `dryRun` behaves as `false`. -/
structure SubmitToGoogleIndexingOptions where
  baseUrl : String
  serviceAccountPath : String
  urlFilter : Option (String → Bool)
  dryRun : Bool
  notificationType : Option String
  urls : Option (List String)

/-- The URL source selection of `submitToGoogleIndexing`: a nonempty
explicit list is validated, filtered and deduplicated by
`selectExplicitUrls`; an absent or empty explicit list falls back to route
discovery (`explicitUrls?.length` is falsy for an empty array). -/
def googleSelectedUrls (w : GoogleWorld) (o : SubmitToGoogleIndexingOptions)
    (normalizedBase : String) : Except String (List String) :=
  match o.urls with
  | some explicitUrls =>
    if explicitUrls.length ≠ 0 then selectExplicitUrls o.urlFilter [] [] explicitUrls
    else discoveredUrls w.buildDir normalizedBase o.urlFilter
  | none => discoveredUrls w.buildDir normalizedBase o.urlFilter

/-- Embedding of `SubmitToGoogleIndexingResult` of `src/google-indexing.ts`. -/
structure SubmitToGoogleIndexingResult where
  urls : List String
  responses : List UrlResponse
deriving DecidableEq, Repr

/-- Embedding of `submitToGoogleIndexing` of `src/google-indexing.ts`, returning the
settled result (or the thrown error) together with the trace of credential
reads and network effects.  URL selection: a nonempty explicit list is
validated, filtered and deduplicated; an absent or empty explicit list
falls back to route discovery (`explicitUrls?.length` is falsy for an
empty array).  Dry run returns before the credential read.  Otherwise one
access token is obtained and every selected URL is notified sequentially,
each outcome recorded regardless of individual failures. -/
def submitToGoogleIndexing (w : GoogleWorld) (o : SubmitToGoogleIndexingOptions) :
    Except String SubmitToGoogleIndexingResult × List Effect :=
  if o.baseUrl = "" then (.error "`baseUrl` must be provided.", [])
  else if o.serviceAccountPath = "" then (.error "`serviceAccountPath` must be provided.", [])
  else
    match normalizeBaseUrl o.baseUrl with
    | .error e => (.error e, [])
    | .ok normalizedBase =>
      match googleSelectedUrls w o normalizedBase with
      | .error e => (.error e, [])
      | .ok urls =>
        if o.dryRun then (.ok ⟨urls, []⟩, [])
        else
          match readServiceAccount w.credential with
          | .error e => (.error e, [.credRead])
          | .ok sa =>
            match createAccessToken w sa with
            | (.error e, eff) => (.error e, .credRead :: eff)
            | (.ok _accessToken, eff) =>
              let notificationType := o.notificationType.getD "URL_UPDATED"
              let responses := urls.map fun u => urlOutcome u (w.publishFetch u notificationType)
              (.ok ⟨urls, responses⟩,
                .credRead :: eff ++ urls.map (fun _ => Effect.netFetch GOOGLE_INDEXING_ENDPOINT))

/-- The invariants of a collected route other than the trailing-slash rule:
it begins with a slash, carries no dynamic-segment marker (no bracket and
no colon characters), and is neither a member of the fixed exclusion set
nor an internal-assets path. -/
def routeInvariant (r : String) : Prop :=
  r.toList.head? = some '/' ∧ isDynamicRoute r = false ∧ shouldExcludeRoute r = false

/-- The strict order the sorted route sequence realizes under the
code-point sample collation: the root route precedes every other route,
and two non-root routes appear in ascending code-point lexicographic
order.  Under a different host collation the sequence realizes the order
of that collation instead, not this one. -/
def routeBefore (a b : String) : Prop :=
  (a = "/" ∧ b ≠ "/") ∨ (a ≠ "/" ∧ b ≠ "/" ∧ charsLt a.toList b.toList = true)

instance : DecidableRel routeBefore := fun a b =>
  inferInstanceAs
    (Decidable ((a = "/" ∧ b ≠ "/") ∨ (a ≠ "/" ∧ b ≠ "/" ∧ charsLt a.toList b.toList = true)))

/-- A build directory whose only manifest entry is a static route with raw
key `/index`. -/
def dirIndexOnly : BuildDir :=
  ⟨.content (.obj [("staticRoutes", .arr [.obj [("page", .str "/index")]])]),
    .absent, .absent, .absent⟩

/-- A build directory whose only manifest entry is a static route whose raw
key ends in a double slash. -/
def dirDoubleSlash : BuildDir :=
  ⟨.content (.obj [("staticRoutes", .arr [.obj [("page", .str "/a//")]])]),
    .absent, .absent, .absent⟩

/-- A build directory with three pages-manifest routes, including the root,
used to instantiate the discovery theorems. -/
def dirPages : BuildDir :=
  ⟨.absent, .absent,
    .content (.obj [("/about", .str "pages/about.html"), ("/", .str "pages/index.html"),
      ("/zoo", .str "pages/zoo.html")]),
    .absent⟩

/-- Lexicographic comparison of key sequences, the building block of the
sample ICU-like collation below. -/
def keysLt : List Nat → List Nat → Bool
  | [], [] => false
  | [], _ :: _ => true
  | _ :: _, [] => false
  | a :: as, b :: bs => if a < b then true else if b < a then false else keysLt as bs

/-- Modelled from the spec (the ECMA-402 default collation, the ICU root
collator): the collation weight of an ASCII character under the default
host collation, which differs from code-point order — punctuation (such as
the underscore) sorts before digits, digits before letters, and letters
compare by their base letter first with lowercase preceding uppercase on
ties.  Characters outside ASCII keep their code point. -/
def icuCharKey (c : Char) : Nat :=
  let n := c.toNat
  if 65 ≤ n ∧ n ≤ 90 then 2048 + 2 * (n + 32) + 1
  else if 97 ≤ n ∧ n ≤ 122 then 2048 + 2 * n
  else if 48 ≤ n ∧ n ≤ 57 then 1024 + n
  else n

/-- Modelled from the spec: a sample host collation for
`a.localeCompare(b)`, agreeing with the ICU root collator where it
diverges from code-point order on ASCII (lowercase before uppercase,
punctuation before digits).  It witnesses that the order produced by the
host `localeCompare` need not be code-point lexicographic. -/
def icuSampleCompare (a b : String) : Int :=
  let ka := a.toList.map icuCharKey
  let kb := b.toList.map icuCharKey
  if keysLt ka kb then -1 else if ka = kb then 0 else 1

/-- A build directory with pages-manifest routes `/B`, `/a` and the root,
whose collected order differs between the code-point collation and the
ICU-like collation. -/
def dirCasePages : BuildDir :=
  ⟨.absent, .absent,
    .content (.obj [("/B", .str "pages/B.html"), ("/a", .str "pages/a.html"),
      ("/", .str "pages/index.html")]),
    .absent⟩

/-- An IndexNow world with no manifests and a network on which every
request throws. -/
def failingIndexNowWorld : IndexNowWorld :=
  ⟨⟨.absent, .absent, .absent, .absent⟩, fun _ _ => .thrown (some "boom")⟩

/-- IndexNow options requesting the same endpoint twice. -/
def dupEndpointOptions : SubmitToIndexNowOptions :=
  ⟨"https://ex.com", "k", none, some ["https://a.example", "https://a.example"], none, false⟩

/-- Dry-run IndexNow options. -/
def dryRunIndexNowOptions : SubmitToIndexNowOptions :=
  ⟨"https://ex.com", "k", none, none, none, true⟩

/-- A Google world with no manifests, no credential file and a dead
network. -/
def bareGoogleWorld : GoogleWorld :=
  ⟨⟨.absent, .absent, .absent, .absent⟩, .absent, fun _ _ => .thrown none,
    fun _ _ => .thrown none, fun _ => none, 0, fun _ _ => []⟩

/-- A Google world with a valid credential file, a token endpoint that
answers with a token, and a per-URL notification endpoint that always
throws. -/
def throwingGoogleWorld : GoogleWorld :=
  ⟨⟨.absent, .absent, .absent, .absent⟩,
    .content (.obj [("client_email", .str "svc@example.iam.gserviceaccount.com"),
      ("private_key", .str "KEY")]),
    fun _ _ => .response 200 "tokenjson", fun _ _ => .thrown (some "net down"),
    fun _ => some (.obj [("access_token", .str "TOKEN")]), 1700000000, fun _ _ => []⟩

/-- Google options with two explicit URLs, not a dry run. -/
def explicitUrlOptions : SubmitToGoogleIndexingOptions :=
  ⟨"https://ex.com", "sa.json", none, false, none,
    some ["https://ex.com/a", "https://ex.com/b"]⟩

/-- Dry-run Google options with no explicit URLs. -/
def dryRunGoogleOptions : SubmitToGoogleIndexingOptions :=
  ⟨"https://ex.com", "sa.json", none, true, none, none⟩

/-- The result of running `submitToGoogleIndexing` in `throwingGoogleWorld`
with `explicitUrlOptions`. -/
def googleRunResult : SubmitToGoogleIndexingResult :=
  ⟨["https://ex.com/a", "https://ex.com/b"],
    [⟨"https://ex.com/a", 0, false, some "net down"⟩,
     ⟨"https://ex.com/b", 0, false, some "net down"⟩]⟩

/-! ### Order lemmas for the sort comparator -/

theorem charsLt_irrefl : ∀ l : List Char, charsLt l l = false
  | [] => rfl
  | a :: as => by simp [charsLt, charsLt_irrefl as]

theorem charsLt_asymm : ∀ {a b : List Char}, charsLt a b = true → charsLt b a = false
  | [], [], h => by simp [charsLt] at h
  | [], _ :: _, _ => rfl
  | _ :: _, [], h => by simp [charsLt] at h
  | x :: xs, y :: ys, h => by
    simp only [charsLt] at h ⊢
    rcases lt_trichotomy x y with hlt | heq | hgt
    · rw [if_neg (lt_asymm hlt), if_pos hlt]
    · subst heq
      rw [if_neg (lt_irrefl x), if_neg (lt_irrefl x)] at h ⊢
      exact charsLt_asymm h
    · rw [if_neg (lt_asymm hgt), if_pos hgt] at h
      exact absurd h (by simp)

theorem charsLt_trans : ∀ {a b c : List Char},
    charsLt a b = true → charsLt b c = true → charsLt a c = true
  | [], [], _, h1, _ => by simp [charsLt] at h1
  | [], _ :: _, [], _, h2 => by simp [charsLt] at h2
  | [], _ :: _, _ :: _, _, _ => rfl
  | _ :: _, [], _, h1, _ => by simp [charsLt] at h1
  | _ :: _, _ :: _, [], _, h2 => by simp [charsLt] at h2
  | x :: xs, y :: ys, z :: zs, h1, h2 => by
    simp only [charsLt] at h1 h2 ⊢
    rcases lt_trichotomy x y with hxy | hxy | hxy
    · rcases lt_trichotomy y z with hyz | hyz | hyz
      · rw [if_pos (lt_trans hxy hyz)]
      · subst hyz; rw [if_pos hxy]
      · rw [if_neg (lt_asymm hyz), if_pos hyz] at h2
        exact absurd h2 (by simp)
    · subst hxy
      rw [if_neg (lt_irrefl x), if_neg (lt_irrefl x)] at h1
      rcases lt_trichotomy x z with hxz | hxz | hxz
      · rw [if_pos hxz]
      · subst hxz
        rw [if_neg (lt_irrefl x), if_neg (lt_irrefl x)] at h2 ⊢
        exact charsLt_trans h1 h2
      · rw [if_neg (lt_asymm hxz), if_pos hxz] at h2
        exact absurd h2 (by simp)
    · rw [if_neg (lt_asymm hxy), if_pos hxy] at h1
      exact absurd h1 (by simp)

theorem charsLt_conn : ∀ {a b : List Char},
    charsLt a b = false → charsLt b a = false → a = b
  | [], [], _, _ => rfl
  | [], _ :: _, h1, _ => by simp [charsLt] at h1
  | _ :: _, [], _, h2 => by simp [charsLt] at h2
  | x :: xs, y :: ys, h1, h2 => by
    rcases lt_trichotomy x y with hxy | hxy | hxy
    · rw [charsLt, if_pos hxy] at h1
      exact absurd h1 (by simp)
    · subst hxy
      rw [charsLt, if_neg (lt_irrefl x), if_neg (lt_irrefl x)] at h1 h2
      rw [charsLt_conn h1 h2]
    · rw [charsLt, if_pos hxy] at h2
      exact absurd h2 (by simp)

theorem string_eq_of_toList_eq : ∀ {a b : String}, a.toList = b.toList → a = b := by
  intro a b h
  cases a
  cases b
  simp only [String.toList] at h
  rw [h]

theorem codePointCompare_le {a b : String} :
    codePointCompare a b ≤ 0 ↔ charsLt a.toList b.toList = true ∨ a = b := by
  unfold codePointCompare
  rcases hc : charsLt a.toList b.toList <;> by_cases he : a = b <;> simp [hc, he]

theorem routeLE_total (a b : String) : routeLE a b ∨ routeLE b a := by
  unfold routeLE routeCompare
  by_cases ha : a = "/" <;> by_cases hb : b = "/" <;> simp [ha, hb]
  rcases hab : charsLt a.toList b.toList with _ | _
  · rcases hba : charsLt b.toList a.toList with _ | _
    · left
      exact codePointCompare_le.mpr (Or.inr (string_eq_of_toList_eq (charsLt_conn hab hba)))
    · right
      exact codePointCompare_le.mpr (Or.inl hba)
  · left
    exact codePointCompare_le.mpr (Or.inl hab)

theorem routeLE_trans {a b c : String} (h1 : routeLE a b) (h2 : routeLE b c) : routeLE a c := by
  unfold routeLE routeCompare at h1 h2 ⊢
  by_cases ha : a = "/"
  · simp [ha]
  · rw [if_neg ha] at h1 ⊢
    by_cases hb : b = "/"
    · rw [if_pos hb] at h1
      exact absurd h1 (by norm_num)
    · rw [if_neg hb] at h1 h2
      by_cases hc : c = "/"
      · rw [if_pos hc] at h2
        exact absurd h2 (by norm_num)
      · rw [if_neg hc] at h2 ⊢
        rcases codePointCompare_le.mp h1 with hab | hab
        · rcases codePointCompare_le.mp h2 with hbc | hbc
          · exact codePointCompare_le.mpr (Or.inl (charsLt_trans hab hbc))
          · subst hbc
            exact codePointCompare_le.mpr (Or.inl hab)
        · subst hab
          exact h2

theorem routeLE_before {a b : String} (h : routeLE a b) (hne : a ≠ b) : routeBefore a b := by
  unfold routeLE routeCompare at h
  by_cases ha : a = "/"
  · subst ha
    exact Or.inl ⟨rfl, fun hb => hne hb.symm⟩
  · rw [if_neg ha] at h
    by_cases hb : b = "/"
    · rw [if_pos hb] at h
      exact absurd h (by norm_num)
    · rw [if_neg hb] at h
      rcases codePointCompare_le.mp h with hlt | heq
      · exact Or.inr ⟨ha, hb, hlt⟩
      · exact absurd heq hne

theorem sortRoutes_sorted (l : List String) : (sortRoutes l).Pairwise routeLE := by
  haveI : IsTotal String routeLE := ⟨routeLE_total⟩
  haveI : IsTrans String routeLE := ⟨fun _ _ _ => routeLE_trans⟩
  exact List.sorted_insertionSort routeLE l

theorem sortRoutes_perm (l : List String) : (sortRoutes l).Perm l :=
  List.perm_insertionSort routeLE l

/-! ### Order lemmas for an arbitrary host collation oracle -/

theorem codePointCompare_total (a b : String) :
    codePointCompare a b ≤ 0 ∨ codePointCompare b a ≤ 0 := by
  rcases hab : charsLt a.toList b.toList with _ | _
  · rcases hba : charsLt b.toList a.toList with _ | _
    · left
      exact codePointCompare_le.mpr (Or.inr (string_eq_of_toList_eq (charsLt_conn hab hba)))
    · right
      exact codePointCompare_le.mpr (Or.inl hba)
  · left
    exact codePointCompare_le.mpr (Or.inl hab)

theorem codePointCompare_trans (a b c : String)
    (h1 : codePointCompare a b ≤ 0) (h2 : codePointCompare b c ≤ 0) :
    codePointCompare a c ≤ 0 := by
  rcases codePointCompare_le.mp h1 with hab | hab
  · rcases codePointCompare_le.mp h2 with hbc | hbc
    · exact codePointCompare_le.mpr (Or.inl (charsLt_trans hab hbc))
    · subst hbc
      exact codePointCompare_le.mpr (Or.inl hab)
  · subst hab
    exact h2

theorem routeLEWith_total (cmp : String → String → Int)
    (htot : ∀ a b, cmp a b ≤ 0 ∨ cmp b a ≤ 0) (a b : String) :
    routeLEWith cmp a b ∨ routeLEWith cmp b a := by
  unfold routeLEWith routeCompareWith
  by_cases ha : a = "/" <;> by_cases hb : b = "/" <;> simp [ha, hb]
  exact htot a b

theorem routeLEWith_trans (cmp : String → String → Int)
    (htrans : ∀ a b c, cmp a b ≤ 0 → cmp b c ≤ 0 → cmp a c ≤ 0)
    {a b c : String} (h1 : routeLEWith cmp a b) (h2 : routeLEWith cmp b c) :
    routeLEWith cmp a c := by
  unfold routeLEWith routeCompareWith at h1 h2 ⊢
  by_cases ha : a = "/"
  · simp [ha]
  · rw [if_neg ha] at h1 ⊢
    by_cases hb : b = "/"
    · rw [if_pos hb] at h1
      exact absurd h1 (by norm_num)
    · rw [if_neg hb] at h1 h2
      by_cases hc : c = "/"
      · rw [if_pos hc] at h2
        exact absurd h2 (by norm_num)
      · rw [if_neg hc] at h2 ⊢
        exact htrans a b c h1 h2

theorem routeLEWith_root_right (cmp : String → String → Int) {x : String}
    (hx : x ≠ "/") : ¬ routeLEWith cmp x "/" := by
  unfold routeLEWith routeCompareWith
  rw [if_neg hx, if_pos rfl]
  norm_num

theorem sortRoutesWith_sorted (cmp : String → String → Int)
    (htot : ∀ a b, cmp a b ≤ 0 ∨ cmp b a ≤ 0)
    (htrans : ∀ a b c, cmp a b ≤ 0 → cmp b c ≤ 0 → cmp a c ≤ 0)
    (l : List String) : (sortRoutesWith cmp l).Pairwise (routeLEWith cmp) := by
  haveI : IsTotal String (routeLEWith cmp) := ⟨routeLEWith_total cmp htot⟩
  haveI : IsTrans String (routeLEWith cmp) :=
    ⟨fun _ _ _ h1 h2 => routeLEWith_trans cmp htrans h1 h2⟩
  exact List.sorted_insertionSort (routeLEWith cmp) l

theorem sortRoutesWith_perm (cmp : String → String → Int) (l : List String) :
    (sortRoutesWith cmp l).Perm l :=
  List.perm_insertionSort (routeLEWith cmp) l

/-! ### Invariants of the collected route set -/

theorem head_slash_aux (t : List Char) :
    (if ('/' :: t) ≠ ['/'] ∧ ('/' :: t).getLast? = some '/' then ('/' :: t).dropLast
     else ('/' :: t)).head? = some '/' := by
  by_cases h : ('/' :: t) ≠ ['/'] ∧ ('/' :: t).getLast? = some '/'
  · rw [if_pos h]
    have ht : t ≠ [] := by
      rintro rfl
      exact h.1 rfl
    rw [List.dropLast_cons_of_ne_nil ht]
    rfl
  · rw [if_neg h]
    rfl

theorem normalizeChars_head (l : List Char) : (normalizeChars l).head? = some '/' := by
  unfold normalizeChars
  by_cases hh : l.head? = some '/'
  · simp only [hh, if_pos]
    obtain ⟨t, rfl⟩ : ∃ t, l = '/' :: t := by
      cases l with
      | nil => simp at hh
      | cons a as =>
        simp only [List.head?_cons, Option.some.injEq] at hh
        exact ⟨as, by rw [hh]⟩
    exact head_slash_aux t
  · simp only [eq_false hh, if_false]
    exact head_slash_aux l

theorem normalizeChars_trailing (l : List Char)
    (h1 : normalizeChars l ≠ ['/'])
    (h2 : (normalizeChars l).getLast? = some '/') :
    l.getLast? = some '/' ∧ l.dropLast.getLast? = some '/' := by
  unfold normalizeChars at h1 h2
  by_cases hh : l.head? = some '/'
  · rw [if_pos hh] at h1 h2
    by_cases hb : l ≠ ['/'] ∧ l.getLast? = some '/'
    · rw [if_pos hb] at h2
      exact ⟨hb.2, h2⟩
    · rw [if_neg hb] at h1 h2
      push_neg at hb
      exact absurd h2 (hb h1)
  · rw [if_neg hh] at h1 h2
    by_cases hb : ('/' :: l) ≠ ['/'] ∧ ('/' :: l).getLast? = some '/'
    · rw [if_pos hb] at h1 h2
      have hl : l ≠ [] := by
        rintro rfl
        exact hb.1 rfl
      rw [List.dropLast_cons_of_ne_nil hl] at h1 h2
      have hlast : l.getLast? = some '/' := by
        obtain ⟨b, bs, rfl⟩ : ∃ b bs, l = b :: bs := by
          cases l with
          | nil => exact absurd rfl hl
          | cons b bs => exact ⟨b, bs, rfl⟩
        rw [← List.getLast?_cons_cons]
        exact hb.2
      refine ⟨hlast, ?_⟩
      obtain ⟨d, ds, hd⟩ : ∃ d ds, l.dropLast = d :: ds := by
        cases hdl : l.dropLast with
        | nil => rw [hdl] at h1; exact absurd rfl h1
        | cons d ds => exact ⟨d, ds, rfl⟩
      rw [hd] at h2
      rw [hd]
      rw [← List.getLast?_cons_cons]
      exact h2
    · rw [if_neg hb] at h1 h2
      push_neg at hb
      exact absurd h2 (hb h1)

theorem normalizeRoute_trailing (raw : String)
    (h1 : normalizeRoute raw ≠ "/")
    (h2 : (normalizeRoute raw).toList.getLast? = some '/') :
    raw.toList.getLast? = some '/' ∧ raw.toList.dropLast.getLast? = some '/' := by
  have h1' : normalizeChars raw.toList ≠ ['/'] := by
    intro he
    apply h1
    unfold normalizeRoute
    rw [he]
  exact normalizeChars_trailing raw.toList h1' h2

theorem routeInvariant_root : routeInvariant "/" :=
  ⟨rfl, by decide, by decide⟩

theorem nilInvariant : ∀ x ∈ ([] : List String), routeInvariant x :=
  fun x hx => absurd hx (List.not_mem_nil x)

theorem addRoute_invariant {acc : List String} (hacc : ∀ x ∈ acc, routeInvariant x)
    (b : Bool) (raw : String) : ∀ x ∈ addRoute b acc raw, routeInvariant x := by
  intro x hx
  simp only [addRoute] at hx
  by_cases hguard :
      (isDynamicRoute (normalizeRoute raw) || shouldExcludeRoute (normalizeRoute raw)) = true
  · rw [if_pos hguard] at hx
    exact hacc x hx
  · rw [if_neg hguard] at hx
    by_cases hcont :
        acc.contains (if b ∧ normalizeRoute raw = "/index" then "/" else normalizeRoute raw) = true
    · rw [if_pos hcont] at hx
      exact hacc x hx
    · rw [if_neg hcont] at hx
      rcases List.mem_append.mp hx with hin | hnew
      · exact hacc x hin
      · have hx' := List.mem_singleton.mp hnew
        subst hx'
        simp only [Bool.or_eq_true, not_or] at hguard
        by_cases halias : b ∧ normalizeRoute raw = "/index"
        · rw [if_pos halias]
          exact routeInvariant_root
        · rw [if_neg halias]
          refine ⟨normalizeChars_head raw.toList, ?_, ?_⟩
          · simpa using hguard.1
          · simpa using hguard.2

theorem addRoute_nodup {acc : List String} (h : acc.Nodup) (b : Bool) (raw : String) :
    (addRoute b acc raw).Nodup := by
  simp only [addRoute]
  by_cases hguard :
      (isDynamicRoute (normalizeRoute raw) || shouldExcludeRoute (normalizeRoute raw)) = true
  · rw [if_pos hguard]
    exact h
  · rw [if_neg hguard]
    by_cases hcont :
        acc.contains (if b ∧ normalizeRoute raw = "/index" then "/" else normalizeRoute raw) = true
    · rw [if_pos hcont]
      exact h
    · rw [if_neg hcont]
      have hmem :
          (if b ∧ normalizeRoute raw = "/index" then "/" else normalizeRoute raw) ∉ acc := by
        intro hm
        exact hcont (List.elem_iff.mpr hm)
      rw [List.nodup_append]
      exact ⟨h, List.nodup_singleton _,
        fun y hy hy' => hmem (List.mem_singleton.mp hy' ▸ hy)⟩

theorem foldl_addRoute_invariant (b : Bool) (raws : List String) {acc : List String}
    (hacc : ∀ x ∈ acc, routeInvariant x) :
    ∀ x ∈ raws.foldl (addRoute b) acc, routeInvariant x := by
  induction raws generalizing acc with
  | nil => exact hacc
  | cons r rs ih => exact ih (addRoute_invariant hacc b r)

theorem foldl_addRoute_nodup (b : Bool) (raws : List String) {acc : List String}
    (h : acc.Nodup) : (raws.foldl (addRoute b) acc).Nodup := by
  induction raws generalizing acc with
  | nil => exact h
  | cons r rs ih => exact ih (addRoute_nodup h b r)

theorem collect_ok_shape {dir : BuildDir} {routes : List String}
    (h : collectIndexableRoutes dir = .ok routes) :
    ∃ acc : List String, acc.Nodup ∧ (∀ x ∈ acc, routeInvariant x) ∧
      routes = sortRoutes acc := by
  obtain ⟨rm, pm, pg, ap⟩ := dir
  cases rm <;> cases pm <;> cases pg <;> cases ap <;>
    first
      | exact Except.noConfusion h
      | exact ⟨_,
          foldl_addRoute_nodup _ _ (foldl_addRoute_nodup _ _ (foldl_addRoute_nodup _ _
            (foldl_addRoute_nodup _ _ List.nodup_nil))),
          foldl_addRoute_invariant _ _ (foldl_addRoute_invariant _ _
            (foldl_addRoute_invariant _ _ (foldl_addRoute_invariant _ _ nilInvariant))),
          (Except.ok.inj h).symm⟩

theorem collectWith_ok_shape {cmp : String → String → Int} {dir : BuildDir}
    {routes : List String}
    (h : collectIndexableRoutesWith cmp dir = .ok routes) :
    ∃ acc : List String, acc.Nodup ∧ (∀ x ∈ acc, routeInvariant x) ∧
      routes = sortRoutesWith cmp acc := by
  obtain ⟨rm, pm, pg, ap⟩ := dir
  cases rm <;> cases pm <;> cases pg <;> cases ap <;>
    first
      | exact Except.noConfusion h
      | exact ⟨_,
          foldl_addRoute_nodup _ _ (foldl_addRoute_nodup _ _ (foldl_addRoute_nodup _ _
            (foldl_addRoute_nodup _ _ List.nodup_nil))),
          foldl_addRoute_invariant _ _ (foldl_addRoute_invariant _ _
            (foldl_addRoute_invariant _ _ (foldl_addRoute_invariant _ _ nilInvariant))),
          (Except.ok.inj h).symm⟩

/-! ### Lemmas about the keyed `responses` record -/

theorem lookup_recordSet (m : List (String × EndpointResponse)) (e k : String)
    (v : EndpointResponse) :
    List.lookup k (recordSet m e v) = if k = e then some v else List.lookup k m := by
  induction m with
  | nil =>
    by_cases hk : k = e
    · subst hk
      simp [recordSet, List.lookup]
    · have hbeq : (k == e) = false := beq_eq_false_iff_ne.mpr hk
      simp [recordSet, List.lookup, hk, hbeq]
  | cons p t ih =>
    obtain ⟨a, b⟩ := p
    by_cases hae : a = e
    · subst hae
      by_cases hk : k = a
      · subst hk
        simp [recordSet, List.lookup]
      · have hbeq : (k == a) = false := beq_eq_false_iff_ne.mpr hk
        simp [recordSet, List.lookup, hk, hbeq]
    · have hstep : recordSet ((a, b) :: t) e v = (a, b) :: recordSet t e v := by
        simp [recordSet, hae]
      rw [hstep]
      by_cases hka : k = a
      · subst hka
        simp [List.lookup, hae]
      · have hbeq : (k == a) = false := beq_eq_false_iff_ne.mpr hka
        simp [List.lookup, hbeq, ih]

theorem mem_keys_recordSet (m : List (String × EndpointResponse)) (e k : String)
    (v : EndpointResponse) :
    k ∈ (recordSet m e v).map Prod.fst ↔ k = e ∨ k ∈ m.map Prod.fst := by
  induction m with
  | nil => simp [recordSet]
  | cons p t ih =>
    obtain ⟨a, b⟩ := p
    by_cases hae : a = e
    · subst hae
      simp [recordSet]
    · simp only [recordSet, if_neg hae, List.map_cons, List.mem_cons, ih]
      tauto

theorem nodup_keys_recordSet (m : List (String × EndpointResponse)) (e : String)
    (v : EndpointResponse) (h : (m.map Prod.fst).Nodup) :
    ((recordSet m e v).map Prod.fst).Nodup := by
  induction m with
  | nil => simp [recordSet]
  | cons p t ih =>
    obtain ⟨a, b⟩ := p
    rw [List.map_cons, List.nodup_cons] at h
    by_cases hae : a = e
    · subst hae
      simpa [recordSet] using h
    · simp only [recordSet, if_neg hae, List.map_cons, List.nodup_cons]
      refine ⟨?_, ih h.2⟩
      rw [mem_keys_recordSet]
      rintro (rfl | hmem)
      · exact hae rfl
      · exact h.1 hmem

theorem lookup_foldl_recordSet (g : String → EndpointResponse) (es : List String)
    (acc : List (String × EndpointResponse)) (k : String) :
    List.lookup k (es.foldl (fun m e => recordSet m e (g e)) acc) =
      if k ∈ es then some (g k) else List.lookup k acc := by
  induction es generalizing acc with
  | nil => simp
  | cons e rest ih =>
    rw [List.foldl_cons, ih]
    by_cases hk : k ∈ rest
    · simp [hk, List.mem_cons]
    · rw [if_neg hk, lookup_recordSet]
      by_cases hke : k = e <;> simp [hke, List.mem_cons, hk]

theorem mem_keys_foldl_recordSet (g : String → EndpointResponse) (es : List String)
    (acc : List (String × EndpointResponse)) (k : String) :
    k ∈ ((es.foldl (fun m e => recordSet m e (g e)) acc).map Prod.fst) ↔
      k ∈ es ∨ k ∈ acc.map Prod.fst := by
  induction es generalizing acc with
  | nil => simp
  | cons e rest ih =>
    rw [List.foldl_cons, ih, mem_keys_recordSet]
    simp only [List.mem_cons]
    tauto

theorem nodup_keys_foldl_recordSet (g : String → EndpointResponse) (es : List String)
    (acc : List (String × EndpointResponse)) (h : (acc.map Prod.fst).Nodup) :
    ((es.foldl (fun m e => recordSet m e (g e)) acc).map Prod.fst).Nodup := by
  induction es generalizing acc with
  | nil => exact h
  | cons e rest ih => exact ih _ (nodup_keys_recordSet acc e (g e) h)

/-! ### Lemmas about the base64url encoding -/

theorem b64Char_mem (n : Nat) : b64Char n ∈ base64Alphabet := by
  unfold b64Char
  rw [List.getD_eq_getElem?_getD]
  rcases h : base64Alphabet[n]? with _ | c
  · decide
  · obtain ⟨hlt, hc⟩ := List.getElem?_eq_some_iff.mp h
    rw [Option.getD_some, ← hc]
    exact List.getElem_mem hlt

theorem base64Chars_decomp : ∀ bs : List Nat, ∃ main pad : List Char,
    base64Chars bs = main ++ pad ∧ (∀ c ∈ main, c ∈ base64Alphabet) ∧ (∀ c ∈ pad, c = '=')
  | [] => ⟨[], [], rfl, by simp, by simp⟩
  | [b1] =>
    ⟨[b64Char (b1 / 4), b64Char (b1 % 4 * 16)], ['=', '='], rfl, by
      intro c hc
      rcases List.mem_cons.mp hc with rfl | hc
      · exact b64Char_mem _
      · rw [List.mem_singleton.mp hc]
        exact b64Char_mem _, by decide⟩
  | [b1, b2] =>
    ⟨[b64Char (b1 / 4), b64Char (b1 % 4 * 16 + b2 / 16), b64Char (b2 % 16 * 4)], ['='], rfl, by
      intro c hc
      rcases List.mem_cons.mp hc with rfl | hc
      · exact b64Char_mem _
      rcases List.mem_cons.mp hc with rfl | hc
      · exact b64Char_mem _
      · rw [List.mem_singleton.mp hc]
        exact b64Char_mem _, by decide⟩
  | b1 :: b2 :: b3 :: rest =>
    match base64Chars_decomp rest with
    | ⟨main, pad, h1, h2, h3⟩ =>
      ⟨b64Char (b1 / 4) :: b64Char (b1 % 4 * 16 + b2 / 16) ::
          b64Char (b2 % 16 * 4 + b3 / 64) :: b64Char (b3 % 64) :: main, pad, by
        simp only [base64Chars, h1, List.cons_append], by
        intro c hc
        rcases List.mem_cons.mp hc with rfl | hc
        · exact b64Char_mem _
        rcases List.mem_cons.mp hc with rfl | hc
        · exact b64Char_mem _
        rcases List.mem_cons.mp hc with rfl | hc
        · exact b64Char_mem _
        rcases List.mem_cons.mp hc with rfl | hc
        · exact b64Char_mem _
        · exact h2 c hc, h3⟩

theorem dropWhile_append_all {p : Char → Bool} {xs ys : List Char}
    (h : ∀ c ∈ xs, p c = true) :
    List.dropWhile p (xs ++ ys) = List.dropWhile p ys := by
  induction xs with
  | nil => rfl
  | cons a t ih =>
    rw [List.cons_append, List.dropWhile_cons, if_pos (h a (List.mem_cons_self a t))]
    exact ih fun c hc => h c (List.mem_cons_of_mem a hc)

theorem stripTrailingEquals_append {main pad : List Char} (hpad : ∀ c ∈ pad, c = '=') :
    stripTrailingEquals (main ++ pad) = stripTrailingEquals main := by
  unfold stripTrailingEquals
  rw [List.reverse_append, dropWhile_append_all]
  intro c hc
  rw [List.mem_reverse] at hc
  simpa using hpad c hc

theorem mem_stripTrailingEquals {c : Char} {l : List Char}
    (h : c ∈ stripTrailingEquals l) : c ∈ l := by
  unfold stripTrailingEquals at h
  rw [List.mem_reverse] at h
  have hs := (List.dropWhile_sublist (l := l.reverse) (fun c => decide (c = '='))).mem h
  rwa [List.mem_reverse] at hs

theorem base64UrlEncode_chars (bs : List Nat) :
    '=' ∉ (base64UrlEncode bs).toList ∧ '.' ∉ (base64UrlEncode bs).toList := by
  obtain ⟨main, pad, h1, h2, h3⟩ := base64Chars_decomp bs
  have halpha : ∀ d ∈ base64Alphabet, base64UrlChar d ≠ '=' ∧ base64UrlChar d ≠ '.' := by decide
  have hmain : ∀ c ∈ main.map base64UrlChar, c ≠ '=' ∧ c ≠ '.' := by
    intro c hc
    obtain ⟨d, hd, rfl⟩ := List.mem_map.mp hc
    exact halpha d (h2 d hd)
  have hpadmap : ∀ c ∈ pad.map base64UrlChar, c = '=' := by
    intro c hc
    obtain ⟨d, hd, rfl⟩ := List.mem_map.mp hc
    rw [h3 d hd]
    rfl
  have heq : (base64UrlEncode bs).toList =
      stripTrailingEquals ((base64Chars bs).map base64UrlChar) := rfl
  rw [heq, h1, List.map_append, stripTrailingEquals_append hpadmap]
  constructor
  · intro hmem
    exact (hmain _ (mem_stripTrailingEquals hmem)).1 rfl
  · intro hmem
    exact (hmain _ (mem_stripTrailingEquals hmem)).2 rfl

theorem urlOutcome_url (u : String) (fr : FetchResult) : (urlOutcome u fr).url = u := by
  cases fr <;> rfl

/-! ### Inversion of the submit functions on successful runs -/

theorem submitToIndexNow_ok_inv {w : IndexNowWorld} {o : SubmitToIndexNowOptions}
    {r : SubmitToIndexNowResult} {eff : List Effect}
    (hdry : o.dryRun = false) (h : submitToIndexNow w o = (.ok r, eff)) :
    ∃ (u : JSURL) (urls : List String),
      parseUrlChars o.baseUrl.toList = some u ∧
      discoveredUrls w.buildDir (normalizeParsedBase u) o.urlFilter = .ok urls ∧
      r = ⟨urls, (o.endpoints.getD DEFAULT_ENDPOINTS).foldl
        (fun m e => recordSet m e (endpointOutcome (w.fetch e
          ⟨u.host, o.key, o.keyLocation.getD (normalizeParsedBase u ++ "/" ++ o.key ++ ".txt"),
            urls⟩))) []⟩ ∧
      eff = (o.endpoints.getD DEFAULT_ENDPOINTS).map Effect.netFetch := by
  unfold submitToIndexNow at h
  by_cases h1 : o.baseUrl = ""
  · rw [if_pos h1] at h
    exact absurd (congrArg Prod.fst h) (by simp)
  rw [if_neg h1] at h
  by_cases h2 : o.key = ""
  · rw [if_pos h2] at h
    exact absurd (congrArg Prod.fst h) (by simp)
  rw [if_neg h2] at h
  rcases hu : parseUrlChars o.baseUrl.toList with _ | u
  · rw [hu] at h
    exact absurd (congrArg Prod.fst h) (by simp)
  rw [hu] at h
  dsimp only at h
  rcases hd : discoveredUrls w.buildDir (normalizeParsedBase u) o.urlFilter with e | urls
  · rw [hd] at h
    exact absurd (congrArg Prod.fst h) (by simp)
  rw [hd] at h
  dsimp only at h
  rw [hdry] at h
  simp only [Bool.false_eq_true, if_false] at h
  rw [Prod.mk.injEq] at h
  obtain ⟨hres, heff⟩ := h
  exact ⟨u, urls, rfl, hd, (Except.ok.inj hres).symm, heff.symm⟩

theorem submitToIndexNow_reaches_send {w : IndexNowWorld} {o : SubmitToIndexNowOptions}
    {u : JSURL} {urls : List String}
    (hdry : o.dryRun = false) (h1 : o.baseUrl ≠ "") (h2 : o.key ≠ "")
    (hu : parseUrlChars o.baseUrl.toList = some u)
    (hd : discoveredUrls w.buildDir (normalizeParsedBase u) o.urlFilter = .ok urls) :
    ∃ r, submitToIndexNow w o =
      (.ok r, (o.endpoints.getD DEFAULT_ENDPOINTS).map Effect.netFetch) := by
  unfold submitToIndexNow
  rw [if_neg h1, if_neg h2, hu]
  dsimp only
  rw [hd, hdry]
  simp only [Bool.false_eq_true, if_false]
  exact ⟨_, rfl⟩

theorem submitToGoogle_ok_inv {w : GoogleWorld} {o : SubmitToGoogleIndexingOptions}
    {r : SubmitToGoogleIndexingResult} {eff : List Effect}
    (hdry : o.dryRun = false) (h : submitToGoogleIndexing w o = (.ok r, eff)) :
    r.responses = r.urls.map fun u =>
      urlOutcome u (w.publishFetch u (o.notificationType.getD "URL_UPDATED")) := by
  unfold submitToGoogleIndexing at h
  by_cases h1 : o.baseUrl = ""
  · rw [if_pos h1] at h
    exact absurd (congrArg Prod.fst h) (by simp)
  rw [if_neg h1] at h
  by_cases h2 : o.serviceAccountPath = ""
  · rw [if_pos h2] at h
    exact absurd (congrArg Prod.fst h) (by simp)
  rw [if_neg h2] at h
  rcases hn : normalizeBaseUrl o.baseUrl with e | nb
  · rw [hn] at h
    exact absurd (congrArg Prod.fst h) (by simp)
  rw [hn] at h
  dsimp only at h
  rcases hs : googleSelectedUrls w o nb with e | urls
  · rw [hs] at h
    exact absurd (congrArg Prod.fst h) (by simp)
  rw [hs] at h
  dsimp only at h
  rw [hdry] at h
  simp only [Bool.false_eq_true, if_false] at h
  rcases hsa : readServiceAccount w.credential with e | sa
  · rw [hsa] at h
    exact absurd (congrArg Prod.fst h) (by simp)
  rw [hsa] at h
  dsimp only at h
  rcases hca : createAccessToken w sa with ⟨res, tokenEff⟩
  rw [hca] at h
  cases res with
  | error e => exact absurd (congrArg Prod.fst h) (by simp)
  | ok tok =>
    rw [Prod.mk.injEq] at h
    obtain ⟨hres, _⟩ := h
    have hr := (Except.ok.inj hres).symm
    subst hr
    rfl

/-! ### The explicit-URL validation loop fails fast on a malformed entry -/

theorem selectExplicit_error (f : Option (String → Bool)) :
    ∀ (us seen acc : List String) (u : String), u ∈ us → u ≠ "" →
      parseUrlChars u.toList = none →
    ∃ v ∈ us, v ≠ "" ∧ parseUrlChars v.toList = none ∧
      selectExplicitUrls f seen acc us =
        .error ("Invalid URL provided to submitToGoogleIndexing: " ++ v) := by
  intro us
  induction us with
  | nil =>
    intro seen acc u hu
    exact absurd hu (List.not_mem_nil u)
  | cons x rest ih =>
    intro seen acc u hu hune hup
    by_cases hx : x = ""
    · subst hx
      have hstep : selectExplicitUrls f seen acc ("" :: rest) =
          selectExplicitUrls f seen acc rest := by
        simp [selectExplicitUrls]
      have hu' : u ∈ rest := by
        rcases List.mem_cons.mp hu with rfl | hmem
        · exact absurd rfl hune
        · exact hmem
      obtain ⟨v, hv, hv1, hv2, hv3⟩ := ih seen acc u hu' hune hup
      exact ⟨v, List.mem_cons_of_mem _ hv, hv1, hv2, hstep.trans hv3⟩
    · cases hp : parseUrlChars x.toList with
      | none =>
        have hpd : parseUrlChars x.data = none := hp
        refine ⟨x, List.mem_cons_self x rest, hx, hp, ?_⟩
        simp [selectExplicitUrls, hx, hpd]
      | some j =>
        have hpd : parseUrlChars x.data = some j := hp
        have hu' : u ∈ rest := by
          rcases List.mem_cons.mp hu with rfl | hmem
          · rw [hup] at hp
            cases hp
          · exact hmem
        by_cases hfil : applyFilter f x = true
        · by_cases hseen : x ∈ seen
          · have hstep : selectExplicitUrls f seen acc (x :: rest) =
                selectExplicitUrls f seen acc rest := by
              simp [selectExplicitUrls, hx, hpd, hfil, hseen]
            obtain ⟨v, hv, hv1, hv2, hv3⟩ := ih seen acc u hu' hune hup
            exact ⟨v, List.mem_cons_of_mem _ hv, hv1, hv2, hstep.trans hv3⟩
          · have hstep : selectExplicitUrls f seen acc (x :: rest) =
                selectExplicitUrls f (seen ++ [x]) (acc ++ [x]) rest := by
              simp [selectExplicitUrls, hx, hpd, hfil, hseen]
            obtain ⟨v, hv, hv1, hv2, hv3⟩ := ih (seen ++ [x]) (acc ++ [x]) u hu' hune hup
            exact ⟨v, List.mem_cons_of_mem _ hv, hv1, hv2, hstep.trans hv3⟩
        · have hfil' : applyFilter f x = false := by
            cases hfq : applyFilter f x
            · rfl
            · exact absurd hfq hfil
          have hstep : selectExplicitUrls f seen acc (x :: rest) =
              selectExplicitUrls f seen acc rest := by
            simp [selectExplicitUrls, hx, hpd, hfil']
          obtain ⟨v, hv, hv1, hv2, hv3⟩ := ih seen acc u hu' hune hup
          exact ⟨v, List.mem_cons_of_mem _ hv, hv1, hv2, hstep.trans hv3⟩

/-! ### Claims -/

/-- Claim C1, counterexample.  The claim states that a raw route key
normalizing to `/index` is treated as the root route, so that a build whose
only static route is `/index` yields the route set containing exactly `/`.
On the code this fails: `/index` is a member of `DEFAULT_EXCLUDED_ROUTES`
and the exclusion check runs before the root-aliasing step, so the build
whose only static route is `/index` yields the empty route set, not
the set containing `/`. -/
theorem C1_counterexample :
    normalizeRoute "/index" = "/index" ∧
    collectIndexableRoutes dirIndexOnly = .ok [] ∧
    collectIndexableRoutes dirIndexOnly ≠ .ok ["/"] := by decide

/-- Claim C1, amended.  A raw route key that normalizes to `/index` is
excluded by the fixed exclusion set before the root-aliasing step can map
it to `/`: such a key contributes nothing to the accumulated route set, and
a build whose only static route is `/index` produces the empty route
sequence (the `/index` to `/` aliasing branch is unreachable). -/
theorem C1_indexKeyExcluded :
    (∀ (b : Bool) (acc : List String) (raw : String), normalizeRoute raw = "/index" →
      addRoute b acc raw = acc) ∧
    collectIndexableRoutes dirIndexOnly = .ok [] := by
  constructor
  · intro b acc raw h
    have hc : (isDynamicRoute "/index" || shouldExcludeRoute "/index") = true := by decide
    simp only [addRoute, h]
    rw [if_pos hc]
  · decide

/-- Witness for the amended claim C1: the raw key `index/` (which
normalizes to `/index`) is dropped, leaving the accumulated set
unchanged. -/
theorem C1_witness : addRoute true ["/x"] "index/" = ["/x"] :=
  C1_indexKeyExcluded.1 true ["/x"] "index/" (by decide)

/-- Claim C2, counterexample.  The claim states every returned route has no
trailing slash unless it is exactly the root.  The normalization strips
only one trailing slash, so the raw static route key `/a//` survives as the
returned route `/a/`, which ends in a slash yet is not the root. -/
theorem C2_counterexample :
    collectIndexableRoutes dirDoubleSlash = .ok ["/a/"] ∧
    ¬ ("/a/" = "/" ∨ ("/a/" : String).toList.getLast? ≠ some '/') := by decide

/-- Claim C2, amended.  For every manifest input, every route returned by
`collectIndexableRoutes` begins with `/`, contains no `[`, `]` or `:`
characters, is not a member of the fixed exclusion set and does not start
with `/_next` (the `routeInvariant`), and the returned sequence contains no
duplicates.  The trailing-slash property holds in the weakened form forced
by the counterexample: normalization strips exactly one trailing slash, so
a normalized route can end in `/` only when the raw key ended in `//`. -/
theorem C2_collectInvariants :
    (∀ (dir : BuildDir) (routes : List String), collectIndexableRoutes dir = .ok routes →
      routes.Nodup ∧ ∀ r ∈ routes, routeInvariant r) ∧
    (∀ raw : String, normalizeRoute raw ≠ "/" →
      (normalizeRoute raw).toList.getLast? = some '/' →
      raw.toList.getLast? = some '/' ∧ raw.toList.dropLast.getLast? = some '/') := by
  constructor
  · intro dir routes h
    obtain ⟨acc, hnd, hinv, rfl⟩ := collect_ok_shape h
    have hperm := sortRoutes_perm acc
    exact ⟨hperm.nodup_iff.mpr hnd, fun r hr => hinv r (hperm.mem_iff.mp hr)⟩
  · exact normalizeRoute_trailing

/-- Witness for the amended claim C2, at a build directory with
pages-manifest routes `/about`, `/` and `/zoo`. -/
theorem C2_witness :
    (["/", "/about", "/zoo"] : List String).Nodup ∧ routeInvariant "/about" :=
  ⟨(C2_collectInvariants.1 dirPages ["/", "/about", "/zoo"] (by decide)).1,
   (C2_collectInvariants.1 dirPages ["/", "/about", "/zoo"] (by decide)).2 "/about" (by decide)⟩

/-- Claim C3, counterexample.  The claim states that the returned route
sequence is, for every manifest input, ordered with the root first and the
remainder ascending lexicographically.  The program sorts with
`a.localeCompare(b)`, whose order is the default collation of the host
runtime, not determined by the source code; under the ICU root collator
(the standard default) lowercase letters sort before uppercase ones and
punctuation before digits, both diverging from code-point lexicographic
order.  At a pages manifest holding the routes `/B`, `/a` and the root,
the collection run under the ICU-like sample collation returns the
sequence `/`, `/a`, `/B` — not lexicographically ascending — while the
code-point collation returns `/`, `/B`, `/a`: the lexicographic
conclusion fails, and the order is not even the same across hosts. -/
theorem C3_counterexample :
    icuSampleCompare "/a" "/B" = -1 ∧ codePointCompare "/a" "/B" = 1 ∧
    icuSampleCompare "/foo_bar" "/foo2bar" = -1 ∧
    codePointCompare "/foo_bar" "/foo2bar" = 1 ∧
    collectIndexableRoutesWith icuSampleCompare dirCasePages = .ok ["/", "/a", "/B"] ∧
    ¬ (["/", "/a", "/B"] : List String).Pairwise routeBefore ∧
    collectIndexableRoutesWith codePointCompare dirCasePages = .ok ["/", "/B", "/a"] := by
  decide

/-- Claim C3, amended.  For every host collation oracle `cmp` (the
behavior of `a.localeCompare(b)`) that is total and transitive, and every
manifest input, the returned route sequence is deterministic given the
collation and ordered with the root route first (when present) and all
routes pairwise in the root-first order induced by the comparator; the
fixed code-point instantiation is definitionally `collectIndexableRoutes`,
for which the order is code-point lexicographic (`routeBefore`) — so the
sequence is ascending lexicographic exactly when the host collation is
code-point order, and ascending in the host collation order otherwise. -/
theorem C3_sortedByHostCollation :
    (∀ cmp : String → String → Int,
      (∀ a b, cmp a b ≤ 0 ∨ cmp b a ≤ 0) →
      (∀ a b c, cmp a b ≤ 0 → cmp b c ≤ 0 → cmp a c ≤ 0) →
      ∀ (dir : BuildDir) (routes : List String),
        collectIndexableRoutesWith cmp dir = .ok routes →
        routes.Pairwise (fun a b => routeLEWith cmp a b ∧ a ≠ b) ∧
        ("/" ∈ routes → routes.head? = some "/")) ∧
    collectIndexableRoutesWith codePointCompare = collectIndexableRoutes ∧
    (∀ (dir : BuildDir) (routes : List String), collectIndexableRoutes dir = .ok routes →
      routes.Pairwise routeBefore ∧ ("/" ∈ routes → routes.head? = some "/")) := by
  have hmain : ∀ cmp : String → String → Int,
      (∀ a b, cmp a b ≤ 0 ∨ cmp b a ≤ 0) →
      (∀ a b c, cmp a b ≤ 0 → cmp b c ≤ 0 → cmp a c ≤ 0) →
      ∀ (dir : BuildDir) (routes : List String),
        collectIndexableRoutesWith cmp dir = .ok routes →
        routes.Pairwise (fun a b => routeLEWith cmp a b ∧ a ≠ b) ∧
        ("/" ∈ routes → routes.head? = some "/") := by
    intro cmp htot htrans dir routes h
    obtain ⟨acc, hnd, _, rfl⟩ := collectWith_ok_shape h
    have hsorted := sortRoutesWith_sorted cmp htot htrans acc
    have hnd' := (sortRoutesWith_perm cmp acc).nodup_iff.mpr hnd
    have hstrict : (sortRoutesWith cmp acc).Pairwise
        (fun a b => routeLEWith cmp a b ∧ a ≠ b) := hsorted.and hnd'
    refine ⟨hstrict, ?_⟩
    intro hmem
    cases hl : sortRoutesWith cmp acc with
    | nil =>
      rw [hl] at hmem
      exact absurd hmem (List.not_mem_nil _)
    | cons x xs =>
      rw [hl] at hmem hstrict
      by_cases hx : x = "/"
      · rw [hx]
        rfl
      · rcases List.mem_cons.mp hmem with hr | hr
        · exact absurd hr.symm hx
        · have hrel := (List.pairwise_cons.mp hstrict).1 "/" hr
          exact absurd hrel.1 (routeLEWith_root_right cmp hx)
  refine ⟨hmain, rfl, ?_⟩
  intro dir routes h
  have hcp := hmain codePointCompare codePointCompare_total codePointCompare_trans dir routes h
  exact ⟨hcp.1.imp (fun hab => routeLE_before hab.1 hab.2), hcp.2⟩

/-- Witness for the amended claim C3, instantiating the host collation at
the code-point sample collation on the three-route pages manifest: the
sorted sequence is root-first and pairwise strictly ascending in the
comparator order. -/
theorem C3_witness :
    (["/", "/about", "/zoo"] : List String).Pairwise
      (fun a b => routeLEWith codePointCompare a b ∧ a ≠ b) ∧
    (["/", "/about", "/zoo"] : List String).head? = some "/" :=
  have h := C3_sortedByHostCollation.1 codePointCompare codePointCompare_total
    codePointCompare_trans dirPages ["/", "/about", "/zoo"] (by decide)
  ⟨h.1, h.2 (by decide)⟩

/-- Claim C10.  `collectIndexableRoutes` tolerates only absence of a
manifest file: an absent file reads as `null` and contributes zero routes,
while any other read or parse failure (in particular invalid JSON in a
present manifest) is rethrown and aborts the entire collection. -/
theorem C10_manifestFailurePropagates :
    readJsonIfExists .absent = .ok none ∧
    (∀ msg, readJsonIfExists (.failed msg) = .error msg) ∧
    collectIndexableRoutes ⟨.absent, .absent, .absent, .absent⟩ = .ok [] ∧
    (∀ (dir : BuildDir) (msg : String),
      (dir.routesManifest = .failed msg ∨ dir.prerenderManifest = .failed msg ∨
        dir.pagesManifest = .failed msg ∨ dir.appPathsManifest = .failed msg) →
      ∃ e, collectIndexableRoutes dir = .error e) := by
  refine ⟨rfl, fun msg => rfl, by decide, ?_⟩
  rintro ⟨rm, pm, pg, ap⟩ msg (h | h | h | h)
  · subst h
    exact ⟨msg, rfl⟩
  · subst h
    cases rm <;> exact ⟨_, rfl⟩
  · subst h
    cases rm <;> cases pm <;> exact ⟨_, rfl⟩
  · subst h
    cases rm <;> cases pm <;> cases pg <;> exact ⟨_, rfl⟩

/-- Witness for claim C10: a prerender manifest holding invalid JSON is
rethrown, and the whole collection aborts with an error. -/
theorem C10_witness :
    readJsonIfExists (.failed "Unexpected token o in JSON") =
      .error "Unexpected token o in JSON" ∧
    ∃ e, collectIndexableRoutes
      ⟨.absent, .failed "Unexpected token o in JSON", .absent, .absent⟩ = .error e :=
  ⟨C10_manifestFailurePropagates.2.1 "Unexpected token o in JSON",
   C10_manifestFailurePropagates.2.2.2
     ⟨.absent, .failed "Unexpected token o in JSON", .absent, .absent⟩
     "Unexpected token o in JSON" (Or.inr (Or.inl rfl))⟩

/-- Claim C4, counterexample.  The claim promises N `responses` entries for
every list of N requested endpoints.  A request list naming the same
endpoint twice (N = 2) produces a keyed record with a single entry, because
the `responses` record is keyed by endpoint URL and the duplicate write
lands on the same key, even though two requests (and two network effects)
were issued. -/
theorem C4_counterexample :
    (dupEndpointOptions.endpoints.getD DEFAULT_ENDPOINTS).length = 2 ∧
    dupEndpointOptions.dryRun = false ∧
    submitToIndexNow failingIndexNowWorld dupEndpointOptions =
      (.ok ⟨[], [("https://a.example", ⟨0, false, some "boom"⟩)]⟩,
        [.netFetch "https://a.example", .netFetch "https://a.example"]) ∧
    ([("https://a.example", (⟨0, false, some "boom"⟩ : EndpointResponse))] :
      List (String × EndpointResponse)).length ≠ 2 := by decide

/-- Claim C4, amended.  For every non-dry-run call of `submitToIndexNow`
that settles successfully, the `responses` record holds exactly one entry
per distinct requested endpoint (its keys are duplicate-free and are
exactly the members of the endpoint list; duplicate requests collapse onto
one key), each endpoint is keyed to the outcome of its own fetch with a
thrown transport error recorded as status 0, not ok, and the error message
as body; one network request is traced per requested list entry, and the
operation settles successfully whenever validation and route discovery
allow it to reach the fan-out, regardless of how every endpoint fails. -/
theorem C4_responsesPerEndpoint :
    (∀ (w : IndexNowWorld) (o : SubmitToIndexNowOptions) (r : SubmitToIndexNowResult)
        (eff : List Effect),
      o.dryRun = false → submitToIndexNow w o = (.ok r, eff) →
      (r.responses.map Prod.fst).Nodup ∧
      (∀ k, k ∈ r.responses.map Prod.fst ↔ k ∈ o.endpoints.getD DEFAULT_ENDPOINTS) ∧
      (∀ e ∈ o.endpoints.getD DEFAULT_ENDPOINTS, ∃ p,
        List.lookup e r.responses = some (endpointOutcome (w.fetch e p)) ∧
        ∀ m, w.fetch e p = .thrown m → List.lookup e r.responses = some ⟨0, false, m⟩) ∧
      eff = (o.endpoints.getD DEFAULT_ENDPOINTS).map Effect.netFetch) ∧
    (∀ (w : IndexNowWorld) (o : SubmitToIndexNowOptions) (u : JSURL) (urls : List String),
      o.dryRun = false → o.baseUrl ≠ "" → o.key ≠ "" →
      parseUrlChars o.baseUrl.toList = some u →
      discoveredUrls w.buildDir (normalizeParsedBase u) o.urlFilter = .ok urls →
      ∃ r, submitToIndexNow w o =
        (.ok r, (o.endpoints.getD DEFAULT_ENDPOINTS).map Effect.netFetch)) := by
  constructor
  · intro w o r eff hdry h
    obtain ⟨u, urls, hu, hd, hr, heff⟩ := submitToIndexNow_ok_inv hdry h
    subst hr
    refine ⟨?_, ?_, ?_, heff⟩
    · exact nodup_keys_foldl_recordSet _ _ [] (by simp)
    · intro k
      rw [mem_keys_foldl_recordSet]
      simp
    · intro e he
      refine ⟨⟨u.host, o.key,
        o.keyLocation.getD (normalizeParsedBase u ++ "/" ++ o.key ++ ".txt"), urls⟩, ?_, ?_⟩
      · rw [lookup_foldl_recordSet, if_pos he]
      · intro m hm
        rw [lookup_foldl_recordSet, if_pos he, hm]
        rfl
  · intro w o u urls hdry h1 h2 hu hd
    exact submitToIndexNow_reaches_send hdry h1 h2 hu hd

/-- Witness for the amended claim C4, at the duplicate-endpoint run: the
single response entry is keyed by the endpoint and records the thrown
transport error as status 0 with its message. -/
theorem C4_witness :
    ([("https://a.example", (⟨0, false, some "boom"⟩ : EndpointResponse))].map
      Prod.fst).Nodup ∧
    List.lookup "https://a.example"
      [("https://a.example", (⟨0, false, some "boom"⟩ : EndpointResponse))] =
      some ⟨0, false, some "boom"⟩ :=
  have h := (C4_responsesPerEndpoint.1 failingIndexNowWorld dupEndpointOptions
    ⟨[], [("https://a.example", ⟨0, false, some "boom"⟩)]⟩
    [.netFetch "https://a.example", .netFetch "https://a.example"] rfl (by decide))
  have hlook := (h.2.2.1 "https://a.example" (by decide)).choose_spec.2 (some "boom") rfl
  ⟨h.1, hlook⟩

/-- Claim C5.  For every non-dry-run call of `submitToGoogleIndexing` that
settles successfully, the `responses` array is exactly the per-URL outcome
map over the submitted URL list: one entry per URL, in submission order,
each of shape url/status/ok/body, with a thrown per-URL fetch recorded as
status 0, not ok, and the error message as body — submission continues
past any individual failure. -/
theorem C5_perUrlResponses :
    ∀ (w : GoogleWorld) (o : SubmitToGoogleIndexingOptions)
      (r : SubmitToGoogleIndexingResult) (eff : List Effect),
      o.dryRun = false → submitToGoogleIndexing w o = (.ok r, eff) →
      r.responses = (r.urls.map fun u =>
        urlOutcome u (w.publishFetch u (o.notificationType.getD "URL_UPDATED"))) ∧
      r.responses.map UrlResponse.url = r.urls ∧
      r.responses.length = r.urls.length ∧
      ∀ u m, w.publishFetch u (o.notificationType.getD "URL_UPDATED") = .thrown m →
        urlOutcome u (w.publishFetch u (o.notificationType.getD "URL_UPDATED")) =
          ⟨u, 0, false, m⟩ := by
  intro w o r eff hdry h
  have hresp := submitToGoogle_ok_inv hdry h
  refine ⟨hresp, ?_, ?_, ?_⟩
  · rw [hresp, List.map_map]
    have : (UrlResponse.url ∘ fun u =>
        urlOutcome u (w.publishFetch u (o.notificationType.getD "URL_UPDATED"))) = id := by
      funext u
      exact urlOutcome_url u _
    rw [this, List.map_id]
  · rw [hresp, List.length_map]
  · intro u m hm
    rw [hm]
    rfl

/-- Witness for claim C5: the concrete two-URL run in which every per-URL
notification throws still records both entries in order. -/
theorem C5_witness :
    googleRunResult.responses = (googleRunResult.urls.map fun u =>
      urlOutcome u (throwingGoogleWorld.publishFetch u "URL_UPDATED")) ∧
    googleRunResult.responses.map UrlResponse.url = googleRunResult.urls :=
  have h := C5_perUrlResponses throwingGoogleWorld explicitUrlOptions googleRunResult
    [.credRead, .netFetch GOOGLE_TOKEN_URL, .netFetch GOOGLE_INDEXING_ENDPOINT,
      .netFetch GOOGLE_INDEXING_ENDPOINT] rfl (by decide)
  ⟨h.1, h.2.1⟩

/-- Claim C6.  With `dryRun` set, both submitters trace no effect at all —
no network request and no credential-file read (the fetch branches are
unreachable) — and every successful result carries an empty `responses`
together with `urls` equal to the discovered (or explicitly selected) and
filtered URL list. -/
theorem C6_dryRunPure :
    (∀ (w : IndexNowWorld) (o : SubmitToIndexNowOptions), o.dryRun = true →
      (submitToIndexNow w o).2 = [] ∧
      ∀ r, (submitToIndexNow w o).1 = .ok r →
        r.responses = [] ∧
        ∃ u, parseUrlChars o.baseUrl.toList = some u ∧
          discoveredUrls w.buildDir (normalizeParsedBase u) o.urlFilter = .ok r.urls) ∧
    (∀ (w : GoogleWorld) (o : SubmitToGoogleIndexingOptions), o.dryRun = true →
      (submitToGoogleIndexing w o).2 = [] ∧
      ∀ r, (submitToGoogleIndexing w o).1 = .ok r →
        r.responses = [] ∧
        ∃ nb, normalizeBaseUrl o.baseUrl = .ok nb ∧
          googleSelectedUrls w o nb = .ok r.urls) := by
  constructor
  · intro w o hdry
    unfold submitToIndexNow
    by_cases h1 : o.baseUrl = ""
    · rw [if_pos h1]
      exact ⟨rfl, fun r hr => Except.noConfusion hr⟩
    rw [if_neg h1]
    by_cases h2 : o.key = ""
    · rw [if_pos h2]
      exact ⟨rfl, fun r hr => Except.noConfusion hr⟩
    rw [if_neg h2]
    rcases hu : parseUrlChars o.baseUrl.toList with _ | u
    · exact ⟨rfl, fun r hr => Except.noConfusion hr⟩
    dsimp only
    rcases hd : discoveredUrls w.buildDir (normalizeParsedBase u) o.urlFilter with e | urls
    · exact ⟨rfl, fun r hr => Except.noConfusion hr⟩
    rw [hdry]
    refine ⟨rfl, fun r hr => ?_⟩
    have hr' := (Except.ok.inj hr).symm
    subst hr'
    exact ⟨rfl, u, rfl, hd⟩
  · intro w o hdry
    unfold submitToGoogleIndexing
    by_cases h1 : o.baseUrl = ""
    · rw [if_pos h1]
      exact ⟨rfl, fun r hr => Except.noConfusion hr⟩
    rw [if_neg h1]
    by_cases h2 : o.serviceAccountPath = ""
    · rw [if_pos h2]
      exact ⟨rfl, fun r hr => Except.noConfusion hr⟩
    rw [if_neg h2]
    rcases hn : normalizeBaseUrl o.baseUrl with e | nb
    · exact ⟨rfl, fun r hr => Except.noConfusion hr⟩
    dsimp only
    rcases hs : googleSelectedUrls w o nb with e | urls
    · exact ⟨rfl, fun r hr => Except.noConfusion hr⟩
    rw [hdry]
    refine ⟨rfl, fun r hr => ?_⟩
    have hr' := (Except.ok.inj hr).symm
    subst hr'
    exact ⟨rfl, nb, rfl, hs⟩

/-- Witness for claim C6: two concrete dry runs, one per submitter, trace
no effect. -/
theorem C6_witness :
    (submitToIndexNow failingIndexNowWorld dryRunIndexNowOptions).2 = [] ∧
    (submitToGoogleIndexing bareGoogleWorld dryRunGoogleOptions).2 = [] :=
  ⟨(C6_dryRunPure.1 failingIndexNowWorld dryRunIndexNowOptions rfl).1,
   (C6_dryRunPure.2 bareGoogleWorld dryRunGoogleOptions rfl).1⟩

/-- Claim C7, counterexample.  The claim states that every explicit URL
list containing an entry that fails absolute-URL parsing makes the call
throw a malformed-URL error before any credential read.  The empty string
fails absolute-URL parsing, yet the selection loop skips falsy entries
before parsing, so the list holding exactly the empty string does not
throw at all: the dry run settles successfully with no URLs, and the wet
run proceeds past selection and reads the credential file (failing there
with the credential error, not a malformed-URL error). -/
theorem C7_counterexample :
    parseUrlChars ("" : String).toList = none ∧
    submitToGoogleIndexing bareGoogleWorld
      ⟨"https://ex.com", "sa.json", none, true, none, some [""]⟩ = (.ok ⟨[], []⟩, []) ∧
    submitToGoogleIndexing bareGoogleWorld
      ⟨"https://ex.com", "sa.json", none, false, none, some [""]⟩ =
      (.error "ENOENT: no such file or directory", [.credRead]) := by decide

/-- Claim C7, amended.  For every explicit URL list containing a non-empty
entry that fails absolute-URL parsing (empty entries are skipped by the
falsiness check before parsing), and whenever the call gets past its
base-URL and credential-path validation, `submitToGoogleIndexing` throws
the malformed-URL error naming such an entry, with no credential read and
no network request traced; no deduplication or filtering result of earlier
entries is observable. -/
theorem C7_invalidUrlFailsFast :
    ∀ (w : GoogleWorld) (o : SubmitToGoogleIndexingOptions) (us : List String),
      o.urls = some us → o.baseUrl ≠ "" → o.serviceAccountPath ≠ "" →
      ∀ nb, normalizeBaseUrl o.baseUrl = .ok nb →
      ∀ u ∈ us, u ≠ "" → parseUrlChars u.toList = none →
      ∃ v ∈ us, v ≠ "" ∧ parseUrlChars v.toList = none ∧
        submitToGoogleIndexing w o =
          (.error ("Invalid URL provided to submitToGoogleIndexing: " ++ v), []) := by
  intro w o us hurls hbase hsa nb hnb u hu hune hup
  have hlen : us.length ≠ 0 := by
    cases us with
    | nil => exact absurd hu (List.not_mem_nil u)
    | cons a t => simp
  obtain ⟨v, hv, hv1, hv2, hv3⟩ := selectExplicit_error o.urlFilter us [] [] u hu hune hup
  refine ⟨v, hv, hv1, hv2, ?_⟩
  unfold submitToGoogleIndexing
  rw [if_neg hbase, if_neg hsa, hnb]
  dsimp only
  have hsel : googleSelectedUrls w o nb =
      .error ("Invalid URL provided to submitToGoogleIndexing: " ++ v) := by
    unfold googleSelectedUrls
    rw [hurls]
    dsimp only
    rw [if_pos hlen]
    exact hv3
  rw [hsel]

/-- Witness for the amended claim C7: an explicit list holding the single
entry `not-a-url` makes the call throw the malformed-URL error naming it,
with no effect traced. -/
theorem C7_witness :
    submitToGoogleIndexing bareGoogleWorld
      ⟨"https://ex.com", "sa.json", none, false, none, some ["not-a-url"]⟩ =
      (.error "Invalid URL provided to submitToGoogleIndexing: not-a-url", []) := by
  obtain ⟨v, hv, hv1, hv2, hv3⟩ := C7_invalidUrlFailsFast bareGoogleWorld
    ⟨"https://ex.com", "sa.json", none, false, none, some ["not-a-url"]⟩
    ["not-a-url"] rfl (by decide) (by decide) "https://ex.com" (by decide)
    "not-a-url" (List.mem_singleton.mpr rfl) (by decide) (by decide)
  have hveq := List.mem_singleton.mp hv
  subst hveq
  exact hv3

/-- Claim C9.  Passing an explicit `urls` option that is the empty array
behaves exactly as omitting the option: `explicitUrls?.length` is falsy for
an empty array, so the call falls back to discovering routes from the
build directory. -/
theorem C9_emptyExplicitList (w : GoogleWorld) (baseUrl serviceAccountPath : String)
    (urlFilter : Option (String → Bool)) (dryRun : Bool) (notificationType : Option String) :
    submitToGoogleIndexing w
      ⟨baseUrl, serviceAccountPath, urlFilter, dryRun, notificationType, some []⟩ =
    submitToGoogleIndexing w
      ⟨baseUrl, serviceAccountPath, urlFilter, dryRun, notificationType, none⟩ := rfl

/-- Claim C8.  The assertion built by `createAccessToken` is three
dot-separated segments: the base64url encoding (padding-free, as the
charset conjunct shows, and dot-free, so the segmentation is unambiguous)
of the serialized JSON header with fields `alg` and `typ`, the base64url
encoding of the serialized JSON claims with fields `iss`, `scope`, `aud`,
`exp` issued as `now + 3600` and `iat` issued as `now` (so `exp - iat`
is exactly 3600 seconds), and the base64url-encoded RSA-SHA256 signature
computed over exactly the `header.payload` signing input with the private
key. -/
theorem C8_jwtAssertionStructure :
    ∀ (sign : String → String → List Nat) (sa : ServiceAccount) (now : Nat),
      jwtAssertion sign sa now =
        jwtMessage sa now ++ "." ++ base64UrlEncode (sign sa.privateKey (jwtMessage sa now)) ∧
      jwtMessage sa now = base64UrlEncodeString (Json.stringify jwtHeader) ++ "." ++
        base64UrlEncodeString (Json.stringify (jwtClaims sa now)) ∧
      Json.stringify jwtHeader = "\x7b\"alg\":\"RS256\",\"typ\":\"JWT\"\x7d" ∧
      Json.stringify (jwtClaims sa now) =
        "\x7b" ++ jsonQuote "iss" ++ ":" ++ jsonQuote sa.clientEmail ++ "," ++
          jsonQuote "scope" ++ ":" ++ jsonQuote GOOGLE_INDEXING_SCOPE ++ "," ++
          jsonQuote "aud" ++ ":" ++ jsonQuote sa.tokenUri ++ "," ++
          jsonQuote "exp" ++ ":" ++ toString ((now : Int) + 3600) ++ "," ++
          jsonQuote "iat" ++ ":" ++ toString ((now : Int)) ++ "\x7d" ∧
      (jsonQuote "iss" = "\"iss\"" ∧ jsonQuote "scope" = "\"scope\"" ∧
        jsonQuote "aud" = "\"aud\"" ∧ jsonQuote "exp" = "\"exp\"" ∧
        jsonQuote "iat" = "\"iat\"" ∧
        jsonQuote GOOGLE_INDEXING_SCOPE = "\"https://www.googleapis.com/auth/indexing\"") ∧
      (jwtClaims sa now).getField "exp" = some (.num ((now : Int) + 3600)) ∧
      (jwtClaims sa now).getField "iat" = some (.num ((now : Int))) ∧
      ((now : Int) + 3600) - (now : Int) = 3600 ∧
      ∀ bs : List Nat,
        '=' ∉ (base64UrlEncode bs).toList ∧ '.' ∉ (base64UrlEncode bs).toList := by
  intro sign sa now
  refine ⟨rfl, rfl, rfl, ?_, by decide, rfl, rfl, by ring, base64UrlEncode_chars⟩
  simp [jwtClaims, Json.stringify, Json.stringifyFields, String.append_assoc]
